import Mathlib

/-!
Verification of the file-watcher / job-materializer / job-runner pipeline
(`src/search.py`, `src/copier.py`, `src/job_creater.py`, `src/mcquac_runner.py`).

The Python source is shallowly embedded: pure helpers become Lean functions,
the stateful loops become explicit state-passing functions or step relations,
and filesystem effects are modelled as explicit event lists over abstract
file states.  Machine integers are `Nat` with explicit `% 2 ^ 32` where the
source (SHA-1) wraps.
-/

namespace AiQcAuto

/-! ## SHA-1 (`hashlib.sha1` as used by `search._make_hash`)

`_make_hash` feeds `name.encode("utf-8")` followed by `str(size).encode("ascii")`
into SHA-1 and returns the hex digest.  We embed SHA-1 itself (FIPS 180) over
byte lists so that `_make_hash` is a closed executable function. -/

/-- Reduce a natural number to a 32-bit word value. -/
def w32 (n : Nat) : Nat := n % 4294967296

/-- Rotate the low 32 bits of `n` (assumed `< 2 ^ 32`) left by `s`. -/
def rotl32 (s n : Nat) : Nat := w32 ((n <<< s) ||| (n >>> (32 - s)))

/-- Big-endian byte decomposition of `n` into `k` bytes. -/
def beBytes (k n : Nat) : List Nat :=
  (List.range k).map (fun i => (n >>> (8 * (k - 1 - i))) % 256)

/-- SHA-1 message padding: append `0x80`, zero bytes, and the 64-bit
big-endian bit length, reaching a multiple of 64 bytes. -/
def sha1Pad (msg : List Nat) : List Nat :=
  let len := msg.length
  let padZeros := (119 - len % 64) % 64
  msg ++ [0x80] ++ List.replicate padZeros 0 ++ beBytes 8 (8 * len)

/-- Split a byte list into 64-byte blocks. -/
def chunks64 (l : List Nat) : List (List Nat) :=
  if l = [] then [] else l.take 64 :: chunks64 (l.drop 64)
termination_by l.length
decreasing_by
  simp only [List.length_drop]
  have : l.length ≠ 0 := by simpa [List.length_eq_zero] using by assumption
  omega

/-- Assemble the 16 initial 32-bit words of a 64-byte block (big-endian). -/
def words16 (block : List Nat) : List Nat :=
  (List.range 16).map (fun i =>
    (block.getD (4 * i) 0) <<< 24 ||| (block.getD (4 * i + 1) 0) <<< 16 |||
    (block.getD (4 * i + 2) 0) <<< 8 ||| block.getD (4 * i + 3) 0)

/-- Extend 16 schedule words to 80: `w[i] = rotl1 (w[i-3] ^ w[i-8] ^ w[i-14] ^ w[i-16])`. -/
def extendWords (ws : List Nat) : List Nat :=
  (List.range 64).foldl
    (fun acc j =>
      acc ++ [rotl32 1 (acc.getD (j + 13) 0 ^^^ acc.getD (j + 8) 0 ^^^
                        acc.getD (j + 2) 0 ^^^ acc.getD j 0)])
    ws

/-- SHA-1 round function for round `t`. -/
def sha1F (t b c d : Nat) : Nat :=
  if t < 20 then (b &&& c) ||| ((b ^^^ 0xFFFFFFFF) &&& d)
  else if t < 40 then b ^^^ c ^^^ d
  else if t < 60 then (b &&& c) ||| (b &&& d) ||| (c &&& d)
  else b ^^^ c ^^^ d

/-- SHA-1 round constant for round `t`. -/
def sha1K (t : Nat) : Nat :=
  if t < 20 then 0x5A827999
  else if t < 40 then 0x6ED9EBA1
  else if t < 60 then 0x8F1BBCDC
  else 0xCA62C1D6

/-- One SHA-1 round on the five-word state. -/
def sha1Round (st : Nat × Nat × Nat × Nat × Nat) (t w : Nat) :
    Nat × Nat × Nat × Nat × Nat :=
  let (a, b, c, d, e) := st
  (w32 (rotl32 5 a + sha1F t b c d + e + sha1K t + w), a, rotl32 30 b, c, d)

/-- Compress one 64-byte block into the running state. -/
def sha1Block (h : Nat × Nat × Nat × Nat × Nat) (block : List Nat) :
    Nat × Nat × Nat × Nat × Nat :=
  let ws := extendWords (words16 block)
  let fin := (List.range 80).foldl (fun st t => sha1Round st t (ws.getD t 0)) h
  (w32 (h.1 + fin.1), w32 (h.2.1 + fin.2.1), w32 (h.2.2.1 + fin.2.2.1),
   w32 (h.2.2.2.1 + fin.2.2.2.1), w32 (h.2.2.2.2 + fin.2.2.2.2))

/-- SHA-1 digest of a byte list, as 20 bytes. -/
def sha1Bytes (msg : List Nat) : List Nat :=
  let h := (chunks64 (sha1Pad msg)).foldl sha1Block
    (0x67452301, 0xEFCDAB89, 0x98BADCFE, 0x10325476, 0xC3D2E1F0)
  beBytes 4 h.1 ++ beBytes 4 h.2.1 ++ beBytes 4 h.2.2.1 ++
  beBytes 4 h.2.2.2.1 ++ beBytes 4 h.2.2.2.2

/-- Lower-case hex character for a value `< 16`. -/
def hexChar (n : Nat) : Char :=
  if n < 10 then Char.ofNat (48 + n) else Char.ofNat (87 + n)

/-- Lower-case hex string of a byte list (as `hexdigest` renders it). -/
def bytesToHex (bs : List Nat) : String :=
  ⟨(bs.map (fun b => [hexChar (b >>> 4), hexChar (b &&& 15)])).flatten⟩

/-- Hex digest of SHA-1, mirroring `hashlib.sha1(...).hexdigest()`. -/
def sha1Hex (msg : List Nat) : String := bytesToHex (sha1Bytes msg)

/-! ## UTF-8 encoding of strings (`str.encode("utf-8")`) -/

/-- UTF-8 byte encoding of one Unicode code point. -/
def charUtf8 (c : Char) : List Nat :=
  let n := c.toNat
  if n < 0x80 then [n]
  else if n < 0x800 then [0xC0 ||| (n >>> 6), 0x80 ||| (n &&& 0x3F)]
  else if n < 0x10000 then
    [0xE0 ||| (n >>> 12), 0x80 ||| ((n >>> 6) &&& 0x3F), 0x80 ||| (n &&& 0x3F)]
  else
    [0xF0 ||| (n >>> 18), 0x80 ||| ((n >>> 12) &&& 0x3F),
     0x80 ||| ((n >>> 6) &&& 0x3F), 0x80 ||| (n &&& 0x3F)]

/-- UTF-8 byte encoding of a string. -/
def strUtf8 (s : String) : List Nat := (s.data.map charUtf8).flatten

/-! ## `search._make_hash` -/

/-- Byte sequence fed to SHA-1 by `_make_hash`:
`h.update(name.encode("utf-8")); h.update(str(size).encode("ascii"))`.
Decimal digits encode identically in ASCII and UTF-8. -/
def makeHashInput (name : String) (size : Nat) : List Nat :=
  strUtf8 name ++ strUtf8 (toString size)

/-- Embedding of `search._make_hash(name, size)`: hex SHA-1 digest of the
name bytes followed by the decimal size bytes. -/
def make_hash (name : String) (size : Nat) : String :=
  sha1Hex (makeHashInput name size)

/-! ## `search._normalize_patterns`

Pattern strings are modelled as `List Char` so that suffix / split / trim
reasoning stays structural. -/

/-- Separator characters of `re.split(r"[;,|]", s)`. -/
def isSepChar (c : Char) : Bool := c == ',' || c == ';' || c == '|'

/-- Whitespace stripped by Python `str.strip()`. -/
def isPySpace (c : Char) : Bool :=
  ([' ', '\t', '\n', '\r', '\x0b', '\x0c'] : List Char).contains c

/-- Python `str.lstrip()`. -/
def lstripChars (l : List Char) : List Char := l.dropWhile isPySpace

/-- Python `str.strip()`: drop leading and trailing whitespace. -/
def trimChars (l : List Char) : List Char :=
  ((l.dropWhile isPySpace).reverse.dropWhile isPySpace).reverse

/-- Python `p.endswith(".raw")`. -/
def endsRaw (p : List Char) : Bool := p.reverse.take 4 == ['w', 'a', 'r', '.']

/-- The `.d` sibling variant `p[:-4] + ".d"` synthesized for `.raw` patterns. -/
def rawAlt (p : List Char) : List Char := (p.reverse.drop 4).reverse ++ ['.', 'd']

/-- Append `p` to the accumulator unless already present
(`if p not in patterns: patterns.append(p)`). -/
def appendIfAbsent (acc : List (List Char)) (p : List Char) : List (List Char) :=
  if p ∈ acc then acc else acc ++ [p]

/-- Body of the `for p in raw_list` loop of `_normalize_patterns`: add `p`
if absent, then add its `.d` variant if `p` ends in `.raw` and the variant
is absent. -/
def addPattern (acc : List (List Char)) (p : List Char) : List (List Char) :=
  let acc1 := appendIfAbsent acc p
  if endsRaw p then appendIfAbsent acc1 (rawAlt p) else acc1

/-- The full loop of `_normalize_patterns` over the raw pattern list
(empty entries are skipped by `if not p: continue`). -/
def normalizeLoop (rawList : List (List Char)) : List (List Char) :=
  rawList.foldl (fun acc p => if p.isEmpty then acc else addPattern acc p) []

/-- Argument forms `_normalize_patterns` accepts: a plain string or an
iterable of strings. -/
inductive PatternSpec
  | ofString (s : List Char)
  | ofList (l : List (List Char))

/-- Python `any(sep in s for sep in (",", ";", "|"))`. -/
def hasSep (s : List Char) : Bool := s.any isSepChar

/-- Front half of `_normalize_patterns` producing `raw_list`: strip a plain
string and split it on separators when present; strip and drop empties for
an iterable argument. -/
def rawListOf : PatternSpec → List (List Char)
  | .ofString s0 =>
    let s := trimChars s0
    if s.isEmpty then []
    else if hasSep s then
      ((s.splitOnP isSepChar).map trimChars).filter (fun p => !p.isEmpty)
    else [s]
  | .ofList l => (l.map trimChars).filter (fun p => !p.isEmpty)

/-- Embedding of `search._normalize_patterns`. -/
def normalize_patterns (spec : PatternSpec) : List (List Char) :=
  normalizeLoop (rawListOf spec)

/-! ## Stability history (`search._worker` scan update, `search._finalize_snapshot`) -/

/-- History entry map `{ name: (size, stable_count) }`, as an association
list keyed by name (Python dict; keys are unique). -/
abbrev History := List (String × Nat × Nat)

/-- Candidate record emitted by `_finalize_snapshot`
(`{"name": ..., "size": ..., "hash": ..., "count": ...}`). -/
structure Candidate where
  name : String
  size : Nat
  hash : String
  count : Nat
deriving DecidableEq, Repr

/-- New `stable_count` for one observed `(name, size)`:
`min(prev_count + 1, 1_000_000)` when the recorded size matches, else `1`
(also `1` when the name is new — `history.get(name, (None, 0))` yields a
non-matching previous size). -/
def updateEntry (history : History) (name : String) (size : Nat) : Nat :=
  match history.lookup name with
  | some (prevSize, prevCount) =>
    if prevSize = size then min (prevCount + 1) 1000000 else 1
  | none => 1

/-- One scan's history update in `_worker`: `new_history` is rebuilt from
the fresh snapshot only, so names absent from `sizes_now` are dropped. -/
def updateHistory (history : History) (sizesNow : List (String × Nat)) : History :=
  sizesNow.map (fun e => (e.1, e.2, updateEntry history e.1 e.2))

/-- Embedding of `search._finalize_snapshot`: keep entries with
`stable_count >= min_stable_scans`, build candidate records with
`_make_hash`, and sort by lower-cased name (Python `sorted` is a stable
merge sort). -/
def finalize_snapshot (history : History) (minStableScans : Nat) : List Candidate :=
  ((history.filter (fun e => minStableScans ≤ e.2.2)).map
    (fun e => ⟨e.1, e.2.1, make_hash e.1 e.2.1, e.2.2⟩)).mergeSort
    (fun a b => a.name.toLower ≤ b.name.toLower)

/-! ## `copier._append_to_ignore_filenames`

The ignore file is a list of text lines; names are `List Char` strings. -/

/-- Python `ln.lstrip().startswith("#")`. -/
def isCommentLine (ln : List Char) : Bool := (lstripChars ln).head? == some '#'

/-- The `existing` set read from the ignore file: stripped content of each
non-blank, non-comment line (set membership is what the source uses, so a
list with `∈` is a faithful model). -/
def ignoreExisting (fileLines : List (List Char)) : List (List Char) :=
  (fileLines.filter (fun ln => !(trimChars ln).isEmpty && !isCommentLine ln)).map trimChars

/-- Python `Path(n).name`: the final path component (empty for a bare
root). -/
def pathName (n : List Char) : List Char :=
  (((n.splitOnP (fun c => c == '/')).filter (fun s => !s.isEmpty)).getLast?).getD []

/-- Embedding of `copier._append_to_ignore_filenames`: collect base names
that are non-empty and not already present in the file's `existing` set
(note: `to_add` is not itself deduplicated), append them as lines, and
return the new file content and the number of appended lines. -/
def append_to_ignore_filenames (fileLines : List (List Char)) (names : List (List Char)) :
    List (List Char) × Nat :=
  let existing := ignoreExisting fileLines
  let toAdd := names.foldl
    (fun acc n =>
      let base := trimChars (pathName n)
      if ¬base.isEmpty ∧ base ∉ existing then acc ++ [base] else acc) []
  (fileLines ++ toAdd, toAdd.length)

/-! ## `copier.copy_candidates` (candidate materializer)

The materializer mutates a process-wide dedupe cache, stages copies, and
creates per-hash job artifacts.  Filesystem effects are modelled as an
explicit event list plus presence sets for the three job-artifact files;
the success/failure of the copy and of the template read come in as fields
of the snapshot item (they are decided by the environment at run time).
Directory creation (`_ensure_hash_dirs`, `mkdir`) has no observable effect
on the claims and is not tracked. -/

/-- Job-artifact files of one hash directory: `mcquac.json` (parameters),
`info.json` (metadata), `.ready` (readiness marker). -/
inductive ArtifactKind
  | params
  | info
  | ready
deriving DecidableEq, Repr

/-- Observable materializer filesystem events.  `copy` is the staging copy
of `(name, size)` into `tmp/<hash>/input/`; `fileWrite` is a write of one
job-artifact file, tagged with the candidate that triggered it. -/
inductive CopyEvent
  | copy (name : String) (size : Nat) (hash : String)
  | fileWrite (name : String) (size : Nat) (kind : ArtifactKind) (hash : String)
deriving DecidableEq, Repr

/-- One snapshot item as `copy_candidates` sees it, together with the
environment outcomes of its fallible steps: whether the resolved source
still exists, whether the `shutil` copy succeeds, and whether the
`config/mcquac.json` template is readable (`write_from_config` raises
otherwise and the inner `except` swallows the error). -/
structure SnapItem where
  cand : Candidate
  srcExists : Bool
  copyOk : Bool
  templateOk : Bool
deriving Repr

/-- Call context of `copy_candidates`: the `add_to_ignore` flag and whether
an `ignore_file` was supplied. -/
structure MatCtx where
  addToIgnore : Bool
  ignoreFileSome : Bool
deriving Repr

/-- Materializer state threaded through `copy_candidates` calls:
`cache` is the process-wide `copied_cache` of `(name, size)` pairs;
`fsParams`/`fsInfo`/`fsReady` are the hashes whose artifact files exist;
`jobsWritten` is the per-call `jobs_written_for_hash` set;
`copiedPaths` records the staged destinations (hash, base name);
`namesForIgnore` is the per-call queue for the ignore file;
`ignoreLines` is the ignore file's content;
`events` is the log of observable filesystem effects. -/
structure MatState where
  cache : List (String × Nat)
  fsParams : List String
  fsInfo : List String
  fsReady : List String
  jobsWritten : List String
  copiedPaths : List (String × List Char)
  namesForIgnore : List (List Char)
  ignoreLines : List (List Char)
  events : List CopyEvent
deriving Repr

/-- `job_creater.write_from_config`: reads `config/mcquac.json` and writes
`tmp/<hash>/mcquac.json` *unconditionally* — there is no existence check,
an existing parameters file is overwritten (the subsequent FASTA/spike
injections rewrite the same file and are not tracked separately). -/
def write_from_config (st : MatState) (it : SnapItem) : MatState :=
  { st with
    fsParams := if it.cand.hash ∈ st.fsParams then st.fsParams else it.cand.hash :: st.fsParams,
    events := st.events ++
      [CopyEvent.fileWrite it.cand.name it.cand.size ArtifactKind.params it.cand.hash] }

/-- `copier._write_info_json` with the default `overwrite=False`: returns
early when `info.json` already exists, writes it otherwise. -/
def write_info_json (st : MatState) (it : SnapItem) : MatState :=
  if it.cand.hash ∈ st.fsInfo then st
  else { st with
    fsInfo := it.cand.hash :: st.fsInfo,
    events := st.events ++
      [CopyEvent.fileWrite it.cand.name it.cand.size ArtifactKind.info it.cand.hash] }

/-- `copier._write_ready_file` with the default `overwrite=False`: keeps an
existing `.ready` marker, creates it otherwise. -/
def write_ready_file (st : MatState) (it : SnapItem) : MatState :=
  if it.cand.hash ∈ st.fsReady then st
  else { st with
    fsReady := it.cand.hash :: st.fsReady,
    events := st.events ++
      [CopyEvent.fileWrite it.cand.name it.cand.size ArtifactKind.ready it.cand.hash] }

/-- The per-hash artifact block of `copy_candidates` (the inner `try`):
generate the parameters file, write the metadata file, create the
readiness marker.  When the template is missing, `write_from_config`
raises before writing anything, the inner `except` swallows the error and
the whole block has no effect. -/
def jobArtifacts (st : MatState) (it : SnapItem) : MatState :=
  if !it.templateOk then st
  else write_ready_file (write_info_json (write_from_config st it) it) it

/-- Base name of the resolved source path (`src.name` of
`_resolve_source_path(name, folder)`; the final component of `name`). -/
def srcBaseName (name : String) : List Char := pathName name.data

/-- Bookkeeping of a successful staging copy (`shutil.copytree`/`copy2`
succeeded): add `(name, size)` to the dedupe cache, record the
destination, queue the base name for the ignore file when configured, and
log the copy event. -/
def stageCopy (ctx : MatCtx) (st : MatState) (it : SnapItem) : MatState :=
  { st with
    cache := (it.cand.name, it.cand.size) :: st.cache,
    copiedPaths := st.copiedPaths ++ [(it.cand.hash, srcBaseName it.cand.name)],
    namesForIgnore :=
      if ctx.addToIgnore ∧ ctx.ignoreFileSome then
        st.namesForIgnore ++ [srcBaseName it.cand.name]
      else st.namesForIgnore,
    events := st.events ++ [CopyEvent.copy it.cand.name it.cand.size it.cand.hash] }

/-- Body of the `for item in snapshot` loop of `copy_candidates`:
skip when `(name, size)` is in the dedupe cache, when the source is gone,
or when the copy raises; otherwise record the copy and — once per hash per
call (`jobs_written_for_hash`) — create the job artifacts and mark the
hash as handled.  The `jobs_written_for_hash` membership test reads the
state before the copy, which carries the same `jobsWritten` field. -/
def processItem (ctx : MatCtx) (st : MatState) (it : SnapItem) : MatState :=
  if (it.cand.name, it.cand.size) ∈ st.cache then st
  else if !it.srcExists then st
  else if !it.copyOk then st
  else if it.cand.hash ∈ st.jobsWritten then stageCopy ctx st it
  else { jobArtifacts (stageCopy ctx st it) it with
         jobsWritten := it.cand.hash :: st.jobsWritten }

/-- Embedding of `copier.copy_candidates` on one snapshot: reset the
per-call sets, process every item, then append the queued base names to
the ignore file. -/
def copy_candidates (ctx : MatCtx) (st0 : MatState) (snapshot : List SnapItem) : MatState :=
  let st := snapshot.foldl (processItem ctx)
    { st0 with jobsWritten := [], namesForIgnore := [] }
  if ctx.addToIgnore ∧ ctx.ignoreFileSome ∧ st.namesForIgnore ≠ [] then
    { st with ignoreLines := (append_to_ignore_filenames st.ignoreLines st.namesForIgnore).1 }
  else st

/-- Materializer state at coordinator start: an arbitrary initial dedupe
cache and ignore file, empty filesystem presence sets, no events yet. -/
def initialMatState (cache0 : List (String × Nat)) (ignore0 : List (List Char)) : MatState :=
  ⟨cache0, [], [], [], [], [], [], ignore0, []⟩

/-- The coordinator main loop's materializer side: one `copy_candidates`
call per received snapshot, all sharing the same dedupe cache and state. -/
def runSnapshots (ctx : MatCtx) (st0 : MatState) (snaps : List (List SnapItem)) : MatState :=
  snaps.foldl (copy_candidates ctx) st0

/-- Number of staging-copy events for a given `(name, size)` pair. -/
def countCopies (evs : List CopyEvent) (name : String) (size : Nat) : Nat :=
  (evs.filter (fun e =>
    match e with
    | CopyEvent.copy n s _ => n == name && s == size
    | _ => false)).length

/-- Number of job-artifact writes of one kind triggered by a given
`(name, size)` pair. -/
def countArtifactWrites (evs : List CopyEvent) (name : String) (size : Nat)
    (kind : ArtifactKind) : Nat :=
  (evs.filter (fun e =>
    match e with
    | CopyEvent.fileWrite n s k _ => n == name && s == size && k == kind
    | _ => false)).length

/-- Number of job-artifact writes of one kind for a given hash directory
(regardless of the triggering candidate). -/
def countHashWrites (evs : List CopyEvent) (kind : ArtifactKind) (h : String) : Nat :=
  (evs.filter (fun e =>
    match e with
    | CopyEvent.fileWrite _ _ k hh => k == kind && hh == h
    | _ => false)).length

/-! ## Lifecycle-marker state machine of one job directory

One job directory carries at most the three marker files `.ready`,
`.working`, `.finish`.  The materializer creates `.ready` via
`_write_ready_file` (create if absent, regardless of other markers); the
runner claims a job via `_rename_atomic(ready, working)` (delete the
destination if present, then `src.replace(dst)`), and finalizes via
`_rename_atomic(working, finish)` either immediately on a dispatch error
or after the tracked process exits (`_runner_loop`).  The runner is a
single thread, so the phases of one claim cannot interleave with another
claim of the same directory.  The materializer's guard, however, is the
process-wide dedupe cache keyed by `(name, size)` — not by directory — so
the state tracks which pairs have entered the cache: any pair whose
`_make_hash` equals the directory's hash can materialize into it while it
is not yet cached, even when the directory is already claimed or
finished. -/

/-- Where the runner stands with respect to one job directory:
not involved, claimed in the current loop iteration (between the
`ready → working` rename and the launch attempt), or supervising a
launched process. -/
inductive RunnerPhase
  | idle
  | claimed
  | launched
deriving DecidableEq, Repr

/-- State of one job directory: which marker files exist, which
`(name, size)` pairs targeting this directory are already in the dedupe
cache, and the runner's phase. -/
structure JobDirState where
  ready : Bool
  working : Bool
  finish : Bool
  cachedKeys : List (String × Nat)
  phase : RunnerPhase
deriving DecidableEq, Repr

/-- Initial state: no marker files, no cached pairs, runner idle. -/
def initJobDir : JobDirState := ⟨false, false, false, [], RunnerPhase.idle⟩

/-- Transitions the source performs on the markers of the job directory
named by hash `h`. -/
inductive JobStep (h : String) : JobDirState → JobDirState → Prop
  /-- `copy_candidates` materializes a pair that hashes to this directory:
  guarded only by the pair's absence from the dedupe cache, then
  `_write_ready_file` creates `.ready` if absent (it never deletes other
  markers, and a fresh per-call `jobs_written_for_hash` cannot prevent
  this across calls). -/
  | materialize (s : JobDirState) (name : String) (size : Nat) :
      make_hash name size = h →
      (name, size) ∉ s.cachedKeys →
      JobStep h s { s with ready := true, cachedKeys := (name, size) :: s.cachedKeys }
  /-- the runner discovers `.ready` and claims:
  `_rename_atomic(ready, working)` removes `.ready` and (re)creates
  `.working`.  The runner only claims directories it is not tracking. -/
  | claim (s : JobDirState) :
      s.ready = true → s.phase = RunnerPhase.idle →
      JobStep h s { s with ready := false, working := true, phase := RunnerPhase.claimed }
  /-- dispatch succeeds: the process starts and the job is tracked
  (appends to `.working` do not change marker presence). -/
  | launchOk (s : JobDirState) :
      s.phase = RunnerPhase.claimed →
      JobStep h s { s with phase := RunnerPhase.launched }
  /-- dispatch fails (missing `mcquac.json`/`main.nf`, spawn error):
  `_rename_atomic(working, finish)` immediately. -/
  | launchErr (s : JobDirState) :
      s.phase = RunnerPhase.claimed →
      JobStep h s { s with working := false, finish := true, phase := RunnerPhase.idle }
  /-- the tracked process exits: after post-processing,
  `_rename_atomic(working, finish)` and the job is dropped from
  `running`. -/
  | finishJob (s : JobDirState) :
      s.phase = RunnerPhase.launched →
      JobStep h s { s with working := false, finish := true, phase := RunnerPhase.idle }

/-- States of the job directory named by hash `h` reachable from the
initial state. -/
inductive JobReachable (h : String) : JobDirState → Prop
  | init : JobReachable h initJobDir
  | step {s t : JobDirState} : JobReachable h s → JobStep h s t → JobReachable h t

/-- Number of marker files present. -/
def markerCount (s : JobDirState) : Nat :=
  (if s.ready then 1 else 0) + (if s.working then 1 else 0) + (if s.finish then 1 else 0)

/-! ## `mcquac_runner._postprocess_failure` and the reap step

The failure branch of the reap phase: `_postprocess_failure` consults
`info.json`, looks for any `*.hdf5` under the job's output area, and —
only when none exists — copies the job directory's `.nextflow.log` into
the final output root as `<src_stem>.error.log`.  The runner-captured
process log (`logs/nextflow-<timestamp>.log`, the `stdout`/`stderr`
capture of the spawned process) is a different file and is not consulted.
Afterwards `_runner_loop` appends the finish timestamp and return code to
`.working` and renames it to `.finish` regardless of the branch taken. -/

/-- The final output root, as filename-to-content bindings. -/
abbrev OutDir := List (String × String)

/-- Overwriting file copy into the output root (`shutil.copy2`). -/
def setFile (d : OutDir) (name content : String) : OutDir :=
  d.filter (fun e => e.1 ≠ name) ++ [(name, content)]

/-- What `_postprocess_failure` can observe about one failed job:
whether `info.json` parses, whether some `*.hdf5` result exists under the
output area, the content of the job directory's `.nextflow.log` (if
present), the content of the runner's captured per-run log file, and the
source stem from `info.json`. -/
structure FailedJobView where
  infoOk : Bool
  hasHdf5 : Bool
  nextflowLog : Option String
  capturedLog : String
  srcStem : String
deriving Repr

/-- Embedding of `_postprocess_failure`: new content of the final output
root.  Nothing is propagated when `info.json` is unusable, when a result
artifact exists, or when `.nextflow.log` is missing; otherwise
`.nextflow.log` is copied to `<src_stem>.error.log`. -/
def postprocess_failure (v : FailedJobView) (finalRoot : OutDir) : OutDir :=
  if !v.infoOk then finalRoot
  else if v.hasHdf5 then finalRoot
  else
    match v.nextflowLog with
    | none => finalRoot
    | some content => setFile finalRoot (v.srcStem ++ ".error.log") content

/-- Marker outcome of the reap step. -/
structure ReapResult where
  finalRoot : OutDir
  workingPresent : Bool
  finishPresent : Bool
deriving Repr

/-- Reap step of `_runner_loop` for a tracked job that exited with a
nonzero return code: run the failure post-processing, then append the
finish line and rename `.working` to `.finish`. -/
def reapFailedJob (v : FailedJobView) (finalRoot : OutDir) : ReapResult :=
  { finalRoot := postprocess_failure v finalRoot,
    workingPresent := false,
    finishPresent := true }

/-! ## Dispatch step of `_runner_loop` (job admission) -/

/-- Outcome of the `subprocess.Popen` launch attempt. -/
inductive LaunchOutcome
  | ok
  | fileNotFound
  | osError
deriving DecidableEq, Repr

/-- What the dispatch code finds for one claimed job: whether
`_find_mcquac_json` located the parameters file, whether
`_resolve_main_nf` located the pipeline entry point, and how the launch
attempt itself would go. -/
structure DispatchEnv where
  mcquacFound : Bool
  mainNfFound : Bool
  launch : LaunchOutcome
deriving Repr

/-- Marker file of the job directory after the dispatch step. -/
inductive MarkerFile
  | working
  | finish
deriving DecidableEq, Repr

/-- Status line category pushed onto the runner's status queue. -/
inductive StatusKind
  | errStatus
  | runStatus
deriving DecidableEq, Repr

/-- Result of dispatching one claimed job. -/
structure DispatchResult where
  marker : MarkerFile
  markerLines : List String
  status : StatusKind
  launched : Bool
  capacity : Nat
deriving Repr

/-- Error note appended when the parameters file or entry point is
missing. -/
def missingFilesNote : String := "error: mcquac.json oder main.nf (aus app.json) nicht gefunden"

/-- Error note appended when the launch raises `FileNotFoundError`. -/
def launchNotFoundNote : String := "error: nextflow nicht gefunden"

/-- Error note appended when the launch raises any other `OSError`. -/
def launchErrorNote : String := "error: Start fehlgeschlagen"

/-- Embedding of the per-directory dispatch body in `_runner_loop` after
the `ready → working` claim rename (`started:` line already appended):
resolve the parameters file and entry point, bail out to `.finish` with an
error note and an error status when either is missing, otherwise append
the command line and launch; launch failures also finalize to `.finish`
with an error note.  `capacity -= 1` happens only on a successful
launch. -/
def admitJob (capacity : Nat) (env : DispatchEnv) : DispatchResult :=
  let lines0 := ["started"]
  if !env.mcquacFound || !env.mainNfFound then
    { marker := MarkerFile.finish,
      markerLines := lines0 ++ [missingFilesNote],
      status := StatusKind.errStatus,
      launched := false,
      capacity := capacity }
  else
    let lines1 := lines0 ++ ["cmd"]
    match env.launch with
    | LaunchOutcome.ok =>
      { marker := MarkerFile.working,
        markerLines := lines1,
        status := StatusKind.runStatus,
        launched := true,
        capacity := capacity - 1 }
    | LaunchOutcome.fileNotFound =>
      { marker := MarkerFile.finish,
        markerLines := lines1 ++ [launchNotFoundNote],
        status := StatusKind.errStatus,
        launched := false,
        capacity := capacity }
    | LaunchOutcome.osError =>
      { marker := MarkerFile.finish,
        markerLines := lines1 ++ [launchErrorNote],
        status := StatusKind.errStatus,
        launched := false,
        capacity := capacity }

/-! ## `mcquac_runner.start_runner_thread` concurrency bound -/

/-- Effective concurrency bound passed to `_runner_loop` by
`start_runner_thread`: `max(1, int(max_parallel))`. -/
def effective_max_parallel (maxParallel : Int) : Int := max 1 maxParallel

/-- Remaining admission capacity computed by `_runner_loop`:
`max(0, int(max_parallel) - len(running))`. -/
def runner_capacity (maxParallel : Int) (runningCount : Nat) : Int :=
  max 0 (maxParallel - runningCount)

/-! ## Auxiliary facts about decimal representations and UTF-8

Used for the hash claims: `str(size)` produces ASCII digit characters, the
decimal representation is injective, and UTF-8 is transparent on ASCII. -/

/-- Decimal value of a digit character. -/
def digitVal (c : Char) : Nat := c.toNat - 48

/-- Base-10 value of a list of digit characters. -/
def digitsVal (l : List Char) : Nat := l.foldl (fun a c => a * 10 + digitVal c) 0

lemma digitsVal_append_singleton (l : List Char) (c : Char) :
    digitsVal (l ++ [c]) = digitsVal l * 10 + digitVal c := by
  simp [digitsVal, List.foldl_append]

lemma toDigitsCore_acc : ∀ (fuel n : Nat) (ds : List Char),
    Nat.toDigitsCore 10 fuel n ds = Nat.toDigitsCore 10 fuel n [] ++ ds
  | 0, n, ds => by simp [Nat.toDigitsCore]
  | fuel + 1, n, ds => by
    simp only [Nat.toDigitsCore]
    by_cases h : n / 10 = 0
    · simp [h]
    · simp only [h, ite_false, if_neg h]
      rw [toDigitsCore_acc fuel (n / 10) (Nat.digitChar (n % 10) :: ds),
        toDigitsCore_acc fuel (n / 10) [Nat.digitChar (n % 10)], List.append_assoc,
        List.singleton_append]

lemma digitVal_digitChar (m : Nat) (h : m < 10) : digitVal (Nat.digitChar m) = m := by
  interval_cases m <;> decide

lemma toDigitsCore_val : ∀ (fuel n : Nat), n < fuel →
    digitsVal (Nat.toDigitsCore 10 fuel n []) = n
  | 0, n, h => absurd h (Nat.not_lt_zero n)
  | fuel + 1, n, h => by
    simp only [Nat.toDigitsCore]
    by_cases hd : n / 10 = 0
    · have hn : n < 10 := by omega
      simp only [hd, ite_true, if_pos hd]
      have : digitsVal [Nat.digitChar (n % 10)] = n % 10 := by
        simp [digitsVal, digitVal_digitChar (n % 10) (Nat.mod_lt n (by omega))]
      rw [this]; omega
    · simp only [hd, ite_false, if_neg hd]
      rw [toDigitsCore_acc fuel (n / 10) [Nat.digitChar (n % 10)],
        digitsVal_append_singleton,
        toDigitsCore_val fuel (n / 10) (by omega),
        digitVal_digitChar (n % 10) (Nat.mod_lt n (by omega))]
      omega

lemma digitChar_toNat_lt (m : Nat) : (Nat.digitChar m).toNat < 128 := by
  rcases Nat.lt_or_ge m 16 with h | h
  · interval_cases m <;> decide
  · have hstar : Nat.digitChar m = '*' := by
      unfold Nat.digitChar
      iterate 16 rw [if_neg (by omega)]
    rw [hstar]; decide

lemma toDigitsCore_ascii : ∀ (fuel n : Nat) (ds : List Char),
    (∀ c ∈ ds, c.toNat < 128) → ∀ c ∈ Nat.toDigitsCore 10 fuel n ds, c.toNat < 128
  | 0, n, ds, hds => by simpa [Nat.toDigitsCore] using hds
  | fuel + 1, n, ds, hds => by
    simp only [Nat.toDigitsCore]
    by_cases hd : n / 10 = 0
    · simp only [hd, ite_true, if_pos hd]
      intro c hc
      rcases List.mem_cons.mp hc with h | h
      · subst h; exact digitChar_toNat_lt (n % 10)
      · exact hds c h
    · simp only [hd, ite_false, if_neg hd]
      refine toDigitsCore_ascii fuel (n / 10) _ ?_
      intro c hc
      rcases List.mem_cons.mp hc with h | h
      · subst h; exact digitChar_toNat_lt (n % 10)
      · exact hds c h

lemma toString_nat_data (n : Nat) : (toString n).data = Nat.toDigits 10 n := rfl

lemma toString_nat_ascii (n : Nat) : ∀ c ∈ (toString n).data, c.toNat < 128 := by
  rw [toString_nat_data]
  exact toDigitsCore_ascii (n + 1) n [] (by simp)

lemma toString_nat_injective : Function.Injective (fun n : Nat => toString n) := by
  intro a b h
  have ha : digitsVal (toString a).data = a := by
    rw [toString_nat_data]
    exact toDigitsCore_val (a + 1) a (Nat.lt_succ_self a)
  have hb : digitsVal (toString b).data = b := by
    rw [toString_nat_data]
    exact toDigitsCore_val (b + 1) b (Nat.lt_succ_self b)
  simp only at h
  rw [← ha, ← hb, h]

lemma char_toNat_injective : Function.Injective Char.toNat := by
  intro a b h
  rw [← Char.ofNat_toNat a, ← Char.ofNat_toNat b, h]

lemma charUtf8_ascii (c : Char) (h : c.toNat < 128) : charUtf8 c = [c.toNat] := by
  simp [charUtf8, h]

lemma flatten_charUtf8_ascii : ∀ (l : List Char), (∀ c ∈ l, c.toNat < 128) →
    (l.map charUtf8).flatten = l.map Char.toNat
  | [], _ => rfl
  | c :: l, h => by
    simp only [List.map_cons, List.flatten_cons,
      charUtf8_ascii c (h c (List.mem_cons_self c l)),
      flatten_charUtf8_ascii l (fun d hd => h d (List.mem_cons_of_mem c hd))]
    rfl

lemma strUtf8_of_ascii (s : String) (h : ∀ c ∈ s.data, c.toNat < 128) :
    strUtf8 s = s.data.map Char.toNat :=
  flatten_charUtf8_ascii s.data h

/-! ## Claim theorems -/

/-- The certain hash collision of `_make_hash`: the distinct pairs
`("a1", 2)` and `("a", 12)` feed the identical byte string `"a12"` to
SHA-1 because name bytes and decimal size bytes are concatenated with no
separator. -/
lemma make_hash_concat_collision : make_hash "a1" 2 = make_hash "a" 12 := by
  have h : makeHashInput "a1" 2 = makeHashInput "a" 12 := by decide
  show sha1Hex (makeHashInput "a1" 2) = sha1Hex (makeHashInput "a" 12)
  rw [h]

/-- C2 counterexample: the claim that distinct `(name, size)` pairs yield
(with overwhelming probability) distinct hashes is false with certainty:
`_make_hash` concatenates the name bytes and the decimal size bytes with
no separator, so the distinct pairs `("a1", 2)` and `("a", 12)` feed the
identical byte string `"a12"` to SHA-1 and collide deterministically. -/
theorem C2_hash_collision_counterexample :
    make_hash "a1" 2 = make_hash "a" 12 ∧ (("a1", 2) : String × Nat) ≠ ("a", 12) :=
  ⟨make_hash_concat_collision, by decide⟩

/-- C2 (amended): identical `(name, size)` always yields the same hash
(the hash is a pure function of the pair); for a fixed name, distinct
sizes always yield distinct SHA-1 input byte strings (so their hashes
differ unless SHA-1 itself collides); but distinct pairs whose
concatenated encodings coincide (such as `("a1", 2)` and `("a", 12)`)
collide with certainty. -/
theorem C2_hash_determinism_and_separation (n1 n2 : String) (s1 s2 : Nat) :
    (n1 = n2 → s1 = s2 → make_hash n1 s1 = make_hash n2 s2) ∧
    (n1 = n2 → s1 ≠ s2 → makeHashInput n1 s1 ≠ makeHashInput n2 s2) := by
  constructor
  · intro hn hs; rw [hn, hs]
  · intro hn hs heq
    subst hn
    apply hs
    have hcancel : strUtf8 (toString s1) = strUtf8 (toString s2) :=
      List.append_cancel_left heq
    rw [strUtf8_of_ascii _ (toString_nat_ascii s1),
      strUtf8_of_ascii _ (toString_nat_ascii s2)] at hcancel
    have hdata : (toString s1).data = (toString s2).data :=
      List.map_injective_iff.mpr char_toNat_injective hcancel
    exact toString_nat_injective (String.ext hdata)

/-- C2 witness: the amended theorem applied at the concrete pairs
`("a.raw", 100)` and `("a.raw", 200)`. -/
theorem C2_hash_determinism_and_separation_witness :
    make_hash "a.raw" 100 = make_hash "a.raw" 100 ∧
    makeHashInput "a.raw" 100 ≠ makeHashInput "a.raw" 200 :=
  ⟨(C2_hash_determinism_and_separation "a.raw" "a.raw" 100 100).1 rfl rfl,
   (C2_hash_determinism_and_separation "a.raw" "a.raw" 100 200).2 rfl (by decide)⟩

/-- C10: `start_runner_thread` clamps any `max_parallel <= 0` to an
effective concurrency bound of 1 (`max(1, int(max_parallel))`), and with
no running jobs the admission capacity `max(0, bound - 0)` is 1, so the
runner still admits jobs rather than pausing. -/
theorem C10_max_parallel_clamped (m : Int) (h : m ≤ 0) :
    effective_max_parallel m = 1 ∧
    runner_capacity (effective_max_parallel m) 0 = 1 ∧
    0 < runner_capacity (effective_max_parallel m) 0 := by
  have h1 : effective_max_parallel m = 1 := max_eq_left (by omega)
  refine ⟨h1, ?_, ?_⟩ <;> rw [h1] <;> decide

/-- C10 witness: the clamp theorem applied at `max_parallel = -3`. -/
theorem C10_max_parallel_clamped_witness :
    effective_max_parallel (-3) = 1 ∧
    runner_capacity (effective_max_parallel (-3)) 0 = 1 ∧
    0 < runner_capacity (effective_max_parallel (-3)) 0 :=
  C10_max_parallel_clamped (-3) (by decide)

/-- C8: when a claimed job's parameters file or pipeline entry point is
missing, the dispatch step appends an error note to the working marker,
renames it to `.finish`, emits an error status, does not launch, and
leaves the remaining capacity unchanged; launch failures
(`FileNotFoundError` or any other error from `Popen`) are handled
identically. -/
theorem C8_dispatch_failure_no_slot (cap : Nat) (env : DispatchEnv) :
    ((env.mcquacFound = false ∨ env.mainNfFound = false) →
      (admitJob cap env).marker = MarkerFile.finish ∧
      (admitJob cap env).status = StatusKind.errStatus ∧
      (admitJob cap env).launched = false ∧
      (admitJob cap env).capacity = cap ∧
      missingFilesNote ∈ (admitJob cap env).markerLines) ∧
    (env.mcquacFound = true → env.mainNfFound = true →
      env.launch ≠ LaunchOutcome.ok →
      (admitJob cap env).marker = MarkerFile.finish ∧
      (admitJob cap env).status = StatusKind.errStatus ∧
      (admitJob cap env).launched = false ∧
      (admitJob cap env).capacity = cap ∧
      (launchNotFoundNote ∈ (admitJob cap env).markerLines ∨
       launchErrorNote ∈ (admitJob cap env).markerLines)) := by
  obtain ⟨mq, nf, l⟩ := env
  cases mq <;> cases nf <;> cases l <;>
    simp [admitJob, missingFilesNote, launchNotFoundNote, launchErrorNote]

/-- C8 witness: a missing parameters file and a launch failure, each at
capacity 3, both finalize the marker and keep capacity 3. -/
theorem C8_dispatch_failure_no_slot_witness :
    (admitJob 3 ⟨false, true, LaunchOutcome.ok⟩).marker = MarkerFile.finish ∧
    (admitJob 3 ⟨false, true, LaunchOutcome.ok⟩).capacity = 3 ∧
    (admitJob 3 ⟨true, true, LaunchOutcome.fileNotFound⟩).marker = MarkerFile.finish ∧
    (admitJob 3 ⟨true, true, LaunchOutcome.fileNotFound⟩).capacity = 3 :=
  ⟨((C8_dispatch_failure_no_slot 3 ⟨false, true, LaunchOutcome.ok⟩).1 (Or.inl rfl)).1,
   ((C8_dispatch_failure_no_slot 3 ⟨false, true, LaunchOutcome.ok⟩).1 (Or.inl rfl)).2.2.2.1,
   ((C8_dispatch_failure_no_slot 3 ⟨true, true, LaunchOutcome.fileNotFound⟩).2
      rfl rfl (by decide)).1,
   ((C8_dispatch_failure_no_slot 3 ⟨true, true, LaunchOutcome.fileNotFound⟩).2
      rfl rfl (by decide)).2.2.2.1⟩

/-- C7 counterexample: the claim says the process's captured log is
copied on failure.  The runner captures the process's stdout/stderr to
`logs/nextflow-<timestamp>.log`, but `_postprocess_failure` copies the
job directory's `.nextflow.log` instead: in a run where the two files
have different contents, the propagated `<stem>.error.log` holds the
`.nextflow.log` content and not the captured log. -/
theorem C7_error_log_source_counterexample :
    (reapFailedJob ⟨true, false, some "nextflow-own-log", "captured-process-output", "a"⟩
        []).finalRoot.lookup "a.error.log" = some "nextflow-own-log" ∧
    (reapFailedJob ⟨true, false, some "nextflow-own-log", "captured-process-output", "a"⟩
        []).finalRoot.lookup "a.error.log" ≠ some "captured-process-output" ∧
    ("nextflow-own-log" : String) ≠ "captured-process-output" := by
  refine ⟨by decide, by decide, by decide⟩

/-- C7 (amended): for a job exiting nonzero with readable metadata: if a
result artifact exists under the output area, nothing is propagated and
the marker is still finalized; otherwise the job directory's
`.nextflow.log` (the pipeline's own log, not the runner-captured per-run
log) is copied into the final output root as `<source-stem>.error.log`,
and the marker is finalized to `.finish` in both branches. -/
theorem C7_failure_postprocess_amended (v : FailedJobView) (root : OutDir)
    (hinfo : v.infoOk = true) :
    (v.hasHdf5 = true →
      reapFailedJob v root = ⟨root, false, true⟩) ∧
    (v.hasHdf5 = false → ∀ c, v.nextflowLog = some c →
      reapFailedJob v root =
        ⟨setFile root (v.srcStem ++ ".error.log") c, false, true⟩) := by
  constructor
  · intro h; simp [reapFailedJob, postprocess_failure, hinfo, h]
  · intro h c hc; simp [reapFailedJob, postprocess_failure, hinfo, h, hc]

/-- C7 witness: the amended theorem applied to a concrete failed job with
no result artifact. -/
theorem C7_failure_postprocess_amended_witness :
    reapFailedJob ⟨true, false, some "log-content", "captured", "a"⟩ [] =
      ⟨setFile [] ("a" ++ ".error.log") "log-content", false, true⟩ :=
  (C7_failure_postprocess_amended ⟨true, false, some "log-content", "captured", "a"⟩ []
    rfl).2 rfl "log-content" rfl

/-! ## Lemmas for pattern normalization (C9) -/

lemma mem_appendIfAbsent {acc : List (List Char)} {p q : List Char} :
    q ∈ appendIfAbsent acc p ↔ q ∈ acc ∨ q = p := by
  unfold appendIfAbsent
  by_cases h : p ∈ acc
  · rw [if_pos h]
    constructor
    · exact Or.inl
    · rintro (hq | rfl)
      · exact hq
      · exact h
  · rw [if_neg h]
    simp

lemma appendIfAbsent_nodup {acc : List (List Char)} (p : List Char) (h : acc.Nodup) :
    (appendIfAbsent acc p).Nodup := by
  unfold appendIfAbsent
  by_cases hp : p ∈ acc
  · rwa [if_pos hp]
  · rw [if_neg hp]
    simp [List.nodup_append, h, hp]

lemma endsRaw_rawAlt (p : List Char) : endsRaw (rawAlt p) = false := by
  have h : (rawAlt p).reverse = 'd' :: '.' :: p.reverse.drop 4 := by
    simp [rawAlt]
  unfold endsRaw
  rw [h]
  rw [show ('d' :: '.' :: p.reverse.drop 4).take 4
      = 'd' :: '.' :: (p.reverse.drop 4).take 2 from rfl]
  simp

/-- The invariant of the `_normalize_patterns` accumulator: no duplicates,
and every member ending in `.raw` has its `.d` sibling present. -/
def PatInv (acc : List (List Char)) : Prop :=
  acc.Nodup ∧ ∀ q ∈ acc, endsRaw q = true → rawAlt q ∈ acc

lemma mem_addPattern {acc : List (List Char)} {p q : List Char} :
    q ∈ addPattern acc p ↔
      q ∈ acc ∨ q = p ∨ (endsRaw p = true ∧ q = rawAlt p) := by
  unfold addPattern
  by_cases h : endsRaw p = true
  · rw [if_pos h, mem_appendIfAbsent, mem_appendIfAbsent]
    have : endsRaw p = true := h
    tauto
  · rw [if_neg h, mem_appendIfAbsent]
    tauto

lemma addPattern_inv {acc : List (List Char)} (p : List Char) (h : PatInv acc) :
    PatInv (addPattern acc p) := by
  obtain ⟨hnd, hcl⟩ := h
  constructor
  · unfold addPattern
    by_cases he : endsRaw p = true
    · rw [if_pos he]
      exact appendIfAbsent_nodup _ (appendIfAbsent_nodup _ hnd)
    · rw [if_neg he]
      exact appendIfAbsent_nodup _ hnd
  · intro q hq hqraw
    rcases mem_addPattern.mp hq with hmem | rfl | ⟨hpe, rfl⟩
    · exact mem_addPattern.mpr (Or.inl (hcl q hmem hqraw))
    · exact mem_addPattern.mpr (Or.inr (Or.inr ⟨hqraw, rfl⟩))
    · rw [endsRaw_rawAlt p] at hqraw
      exact absurd hqraw (by simp)

lemma normalizeLoopFrom_inv : ∀ (rawList : List (List Char)) (acc : List (List Char)),
    PatInv acc →
    PatInv (rawList.foldl (fun acc p => if p.isEmpty then acc else addPattern acc p) acc)
  | [], acc, h => h
  | p :: rest, acc, h => by
    rw [List.foldl_cons]
    by_cases hp : p.isEmpty
    · rw [if_pos hp]
      exact normalizeLoopFrom_inv rest acc h
    · rw [if_neg hp]
      exact normalizeLoopFrom_inv rest (addPattern acc p) (addPattern_inv p h)

/-- C9: for every pattern specification (a single glob string, a string
joined by `,`, `;` or `|`, or an explicit list), `_normalize_patterns`
returns a list with no duplicates in which every pattern ending in `.raw`
is accompanied by its sibling `.d` bundle-directory variant. -/
theorem C9_normalize_patterns_nodup_and_raw_closed (spec : PatternSpec) :
    (normalize_patterns spec).Nodup ∧
    ∀ p ∈ normalize_patterns spec, endsRaw p = true →
      rawAlt p ∈ normalize_patterns spec := by
  have h : PatInv (normalize_patterns spec) :=
    normalizeLoopFrom_inv (rawListOf spec) [] ⟨List.nodup_nil, by simp⟩
  exact ⟨h.1, h.2⟩

/-- C9 witness: on the specification string `"*std.raw"` the result has no
duplicates and contains the synthesized sibling `"*std.d"`. -/
theorem C9_normalize_patterns_nodup_and_raw_closed_witness :
    (normalize_patterns (PatternSpec.ofString "*std.raw".data)).Nodup ∧
    rawAlt "*std.raw".data ∈ normalize_patterns (PatternSpec.ofString "*std.raw".data) :=
  ⟨(C9_normalize_patterns_nodup_and_raw_closed (PatternSpec.ofString "*std.raw".data)).1,
   (C9_normalize_patterns_nodup_and_raw_closed (PatternSpec.ofString "*std.raw".data)).2
     "*std.raw".data (by decide) (by decide)⟩

/-! ## Lemmas for the stability watcher (C5) -/

lemma nodup_keys_mem_unique {l : List (String × Nat)} (hnd : (l.map Prod.fst).Nodup)
    {n : String} {a b : Nat} (ha : (n, a) ∈ l) (hb : (n, b) ∈ l) : a = b := by
  induction l with
  | nil => cases ha
  | cons e rest ih =>
    have hndr : (rest.map Prod.fst).Nodup := (List.nodup_cons.mp hnd).2
    have hhead : e.1 ∉ rest.map Prod.fst := (List.nodup_cons.mp hnd).1
    rcases List.mem_cons.mp ha with rfl | ha'
    · rcases List.mem_cons.mp hb with heq | hb'
      · simp only [Prod.mk.injEq] at heq
        exact heq.2.symm
      · exact absurd (List.mem_map_of_mem Prod.fst hb') hhead
    · rcases List.mem_cons.mp hb with rfl | hb'
      · exact absurd (List.mem_map_of_mem Prod.fst ha') hhead
      · exact ih hndr ha' hb'

lemma updateHistory_keys (h0 : History) (scan : List (String × Nat)) :
    (updateHistory h0 scan).map Prod.fst = scan.map Prod.fst := by
  simp [updateHistory, List.map_map, Function.comp]

lemma lookup_updateHistory {h0 : History} {scan : List (String × Nat)} {name : String}
    {S : Nat} (hnd : (scan.map Prod.fst).Nodup) (hmem : (name, S) ∈ scan) :
    (updateHistory h0 scan).lookup name = some (S, updateEntry h0 name S) := by
  induction scan with
  | nil => cases hmem
  | cons e rest ih =>
    obtain ⟨n', s'⟩ := e
    have hndr : (rest.map Prod.fst).Nodup := (List.nodup_cons.mp hnd).2
    have hhead : n' ∉ rest.map Prod.fst := by
      simpa using (List.nodup_cons.mp hnd).1
    rw [show updateHistory h0 ((n', s') :: rest)
        = (n', s', updateEntry h0 n' s') :: updateHistory h0 rest from rfl]
    by_cases heq : name = n'
    · subst heq
      have hS : s' = S := by
        rcases List.mem_cons.mp hmem with h | h
        · simp only [Prod.mk.injEq] at h
          exact h.2.symm
        · exact absurd (List.mem_map_of_mem Prod.fst h) hhead
      subst hS
      exact List.lookup_cons_self
    · rw [List.lookup_cons]
      have hbeq : (name == n') = false := beq_false_of_ne heq
      rw [hbeq]
      have hmem' : (name, S) ∈ rest := by
        rcases List.mem_cons.mp hmem with h | h
        · exact absurd (congrArg Prod.fst h) heq
        · exact h
      exact ih hndr hmem'

lemma updateEntry_fresh {h0 : History} {name : String} (S : Nat)
    (hfresh : h0.lookup name = none) : updateEntry h0 name S = 1 := by
  simp [updateEntry, hfresh]

lemma mem_finalize_of_stable {h : History} {e : String × Nat × Nat}
    (hmem : e ∈ h) (hcount : 2 ≤ e.2.2) :
    (⟨e.1, e.2.1, make_hash e.1 e.2.1, e.2.2⟩ : Candidate) ∈ finalize_snapshot h 2 := by
  unfold finalize_snapshot
  rw [List.mem_mergeSort]
  exact List.mem_map_of_mem _ (List.mem_filter.mpr ⟨hmem, by simpa using hcount⟩)

/-- C5: stability-history behaviour of the watcher loop.  For a name first
seen at scan `n` (absent from the prior history) with size `S`:
seeing the same size at scan `n + 1` puts it into that scan's candidate
set with `count = 2`; seeing a different size resets its history entry to
count 1 and keeps it out of the candidate set; a name absent from the new
snapshot is dropped from the history entirely; and the consecutive-match
count saturates at 1 000 000. -/
theorem C5_stability_promotion (h0 : History) (scan1 scan2 : List (String × Nat))
    (name : String) (S Sdiff : Nat)
    (hnd1 : (scan1.map Prod.fst).Nodup) (hnd2 : (scan2.map Prod.fst).Nodup)
    (hfresh : h0.lookup name = none) (hmem1 : (name, S) ∈ scan1) :
    ((name, S) ∈ scan2 →
      (⟨name, S, make_hash name S, 2⟩ : Candidate) ∈
        finalize_snapshot (updateHistory (updateHistory h0 scan1) scan2) 2) ∧
    ((name, Sdiff) ∈ scan2 → Sdiff ≠ S →
      (updateHistory (updateHistory h0 scan1) scan2).lookup name = some (Sdiff, 1) ∧
      ∀ c ∈ finalize_snapshot (updateHistory (updateHistory h0 scan1) scan2) 2,
        c.name ≠ name) ∧
    (name ∉ scan2.map Prod.fst →
      (updateHistory (updateHistory h0 scan1) scan2).lookup name = none) ∧
    (∀ (h : History) (nm : String) (sz : Nat), updateEntry h nm sz ≤ 1000000) := by
  have hlook1 : (updateHistory h0 scan1).lookup name = some (S, 1) := by
    rw [lookup_updateHistory hnd1 hmem1, updateEntry_fresh S hfresh]
  refine ⟨?_, ?_, ?_, ?_⟩
  · intro hmem2
    have hup : updateEntry (updateHistory h0 scan1) name S = 2 := by
      simp [updateEntry, hlook1]
    have : (name, S, updateEntry (updateHistory h0 scan1) name S) ∈
        updateHistory (updateHistory h0 scan1) scan2 :=
      List.mem_map_of_mem _ hmem2
    rw [hup] at this
    exact mem_finalize_of_stable this (by simp)
  · intro hmem2 hne
    have hup : updateEntry (updateHistory h0 scan1) name Sdiff = 1 := by
      unfold updateEntry
      rw [hlook1]
      exact if_neg (Ne.symm hne)
    constructor
    · rw [lookup_updateHistory hnd2 hmem2, hup]
    · intro c hc hcname
      unfold finalize_snapshot at hc
      rw [List.mem_mergeSort] at hc
      obtain ⟨e, he, hce⟩ := List.mem_map.mp hc
      have hef : e ∈ updateHistory (updateHistory h0 scan1) scan2 :=
        (List.mem_filter.mp he).1
      have hcount : 2 ≤ e.2.2 := by
        simpa using (List.mem_filter.mp he).2
      obtain ⟨p, hp, hpe⟩ := List.mem_map.mp hef
      have hpname : p.1 = name := by
        rw [← hpe] at hce
        rw [← hce] at hcname
        exact hcname
      have hpS : p.2 = Sdiff := by
        have hm : (p.1, p.2) ∈ scan2 := by simpa using hp
        rw [hpname] at hm
        exact nodup_keys_mem_unique hnd2 hm hmem2
      have hcount2 : 2 ≤ updateEntry (updateHistory h0 scan1) p.1 p.2 := by
        rw [← hpe] at hcount
        exact hcount
      rw [hpname, hpS, hup] at hcount2
      omega
  · intro habs
    rw [List.lookup_eq_none_iff]
    intro p hp
    have : p.1 ∈ scan2.map Prod.fst := by
      rw [← updateHistory_keys (updateHistory h0 scan1) scan2]
      exact List.mem_map_of_mem Prod.fst hp
    have hne : name ≠ p.1 := fun h => habs (h ▸ this)
    simpa using hne
  · intro h nm sz
    unfold updateEntry
    split
    · split
      · exact Nat.min_le_right _ _
      · omega
    · omega

/-- C5 witness: the promotion theorem applied to the concrete two-scan run
of the spec scenario (`a.raw`, 100 bytes, stable over two scans), plus the
reset branch at a changed size. -/
theorem C5_stability_promotion_witness :
    (⟨"a.raw", 100, make_hash "a.raw" 100, 2⟩ : Candidate) ∈
      finalize_snapshot (updateHistory (updateHistory [] [("a.raw", 100)]) [("a.raw", 100)]) 2 ∧
    (updateHistory (updateHistory [] [("a.raw", 100)]) [("a.raw", 90)]).lookup "a.raw"
      = some (90, 1) :=
  ⟨(C5_stability_promotion [] [("a.raw", 100)] [("a.raw", 100)] "a.raw" 100 90
      (by decide) (by decide) rfl (by decide)).1 (by decide),
   ((C5_stability_promotion [] [("a.raw", 100)] [("a.raw", 90)] "a.raw" 100 90
      (by decide) (by decide) rfl (by decide)).2.1 (by decide) (by decide)).1⟩

/-! ## Lemmas for the ignore-file append (C6) -/

lemma dropWhile_head_false {α : Type} {p : α → Bool} {l : List α}
    (h : ∀ a, l.head? = some a → p a = false) : l.dropWhile p = l := by
  cases l with
  | nil => rfl
  | cons a l => simp [List.dropWhile_cons, h a rfl]

lemma dropWhile_idem {α : Type} (p : α → Bool) (l : List α) :
    (l.dropWhile p).dropWhile p = l.dropWhile p := by
  apply dropWhile_head_false
  intro a ha
  have hh := List.head?_dropWhile_not p l
  rw [ha] at hh
  exact hh

lemma lstrip_trimChars (x : List Char) : lstripChars (trimChars x) = trimChars x := by
  unfold trimChars lstripChars
  apply dropWhile_head_false
  intro a ha
  have hpre : ((x.dropWhile isPySpace).reverse.dropWhile isPySpace).reverse
      <+: x.dropWhile isPySpace := by
    have hsuf : (x.dropWhile isPySpace).reverse.dropWhile isPySpace
        <:+ (x.dropWhile isPySpace).reverse := List.dropWhile_suffix isPySpace
    have := List.reverse_prefix.mpr hsuf
    simpa using this
  obtain ⟨t, ht⟩ := hpre
  have hyhead : (x.dropWhile isPySpace).head? = some a := by
    rw [← ht]
    cases hzr : ((x.dropWhile isPySpace).reverse.dropWhile isPySpace).reverse with
    | nil => rw [hzr] at ha; cases ha
    | cons b rest =>
      rw [hzr] at ha
      simp only [List.head?_cons, Option.some.injEq] at ha
      simp [ha]
  have hh := List.head?_dropWhile_not isPySpace x
  rw [hyhead] at hh
  exact hh

lemma trimChars_idem (x : List Char) : trimChars (trimChars x) = trimChars x := by
  have h1 := lstrip_trimChars x
  unfold lstripChars at h1
  show (((trimChars x).dropWhile isPySpace).reverse.dropWhile isPySpace).reverse = trimChars x
  rw [h1]
  have h2 : (trimChars x).reverse = (x.dropWhile isPySpace).reverse.dropWhile isPySpace := by
    unfold trimChars
    rw [List.reverse_reverse]
  rw [h2, dropWhile_idem]
  rfl

lemma ignoreExisting_append (f g : List (List Char)) :
    ignoreExisting (f ++ g) = ignoreExisting f ++ ignoreExisting g := by
  simp [ignoreExisting, List.filter_append]

lemma ignoreExisting_singleton_active {base : List Char}
    (hne : base ≠ []) (hnc : isCommentLine base = false) (htr : trimChars base = base) :
    ignoreExisting [base] = [base] := by
  unfold ignoreExisting
  rw [show List.filter (fun ln => !(trimChars ln).isEmpty && !isCommentLine ln) [base]
      = [base] from by simp [htr, hnc, hne]]
  simp [htr]

/-- C6 counterexample: within a single append call the queued base names
are not deduplicated against each other — only against the file's existing
content — so staging two sources with the same base name in one snapshot
(`/x/a.raw` and `/y/a.raw`) appends the line `a.raw` twice, not once. -/
theorem C6_intra_call_duplicate_counterexample :
    append_to_ignore_filenames [] ["/x/a.raw".data, "/y/a.raw".data] =
      (["a.raw".data, "a.raw".data], 2) ∧
    (["a.raw".data, "a.raw".data].count "a.raw".data) = 2 ∧ (2 : Nat) ≠ 1 := by
  refine ⟨by decide, by decide, by decide⟩

/-- C6 (amended): the append is deduplicated against the file's existing
content, so appending the same name in two *separate* calls yields exactly
one line for it: starting from a file that does not yet carry the base
name, the first call appends exactly the base-name line, the second call
appends nothing, and the final file holds exactly one copy of the line.
Within one call, however, equal base names queued twice are appended
twice (see the counterexample). -/
theorem C6_ignore_dedupe_across_calls (f : List (List Char)) (n : List Char)
    (hne : trimChars (pathName n) ≠ [])
    (hnc : isCommentLine (trimChars (pathName n)) = false)
    (hnotin : trimChars (pathName n) ∉ ignoreExisting f)
    (hnoline : trimChars (pathName n) ∉ f) :
    (append_to_ignore_filenames f [n]).1 = f ++ [trimChars (pathName n)] ∧
    append_to_ignore_filenames (f ++ [trimChars (pathName n)]) [n] =
      (f ++ [trimChars (pathName n)], 0) ∧
    (f ++ [trimChars (pathName n)]).count (trimChars (pathName n)) = 1 := by
  have htr : trimChars (trimChars (pathName n)) = trimChars (pathName n) :=
    trimChars_idem (pathName n)
  refine ⟨?_, ?_, ?_⟩
  · unfold append_to_ignore_filenames
    simp [hne, hnotin]
  · unfold append_to_ignore_filenames
    have hex : ignoreExisting (f ++ [trimChars (pathName n)]) =
        ignoreExisting f ++ [trimChars (pathName n)] := by
      rw [ignoreExisting_append, ignoreExisting_singleton_active hne hnc htr]
    rw [hex]
    simp
  · rw [List.count_append, List.count_eq_zero.mpr hnoline]
    simp

/-- C6 witness: the amended theorem applied to an empty ignore file and
the name `a.raw`. -/
theorem C6_ignore_dedupe_across_calls_witness :
    (append_to_ignore_filenames [] ["a.raw".data]).1 = [] ++ [trimChars (pathName "a.raw".data)] ∧
    append_to_ignore_filenames ([] ++ [trimChars (pathName "a.raw".data)]) ["a.raw".data] =
      ([] ++ [trimChars (pathName "a.raw".data)], 0) ∧
    ([] ++ [trimChars (pathName "a.raw".data)]).count (trimChars (pathName "a.raw".data)) = 1 :=
  C6_ignore_dedupe_across_calls [] "a.raw".data (by decide) (by decide) (by decide) (by decide)

/-! ## Lemmas for the dedupe cache (C1) -/

lemma countCopies_append (evs1 evs2 : List CopyEvent) (n : String) (s : Nat) :
    countCopies (evs1 ++ evs2) n s = countCopies evs1 n s + countCopies evs2 n s := by
  simp [countCopies, List.filter_append]

lemma countArtifactWrites_append (evs1 evs2 : List CopyEvent) (n : String) (s : Nat)
    (kind : ArtifactKind) :
    countArtifactWrites (evs1 ++ evs2) n s kind =
      countArtifactWrites evs1 n s kind + countArtifactWrites evs2 n s kind := by
  simp [countArtifactWrites, List.filter_append]

lemma countCopies_copy_singleton (a : String) (b : Nat) (h : String) (n : String) (s : Nat) :
    countCopies [CopyEvent.copy a b h] n s = if a = n ∧ b = s then 1 else 0 := by
  by_cases hm : a = n ∧ b = s
  · obtain ⟨rfl, rfl⟩ := hm
    simp [countCopies]
  · rw [if_neg hm]
    have : (a == n && b == s) = false := by
      rcases Decidable.not_and_iff_or_not.mp hm with hx | hx <;> simp [hx]
    simp [countCopies, this]

lemma countCopies_write_singleton (a : String) (b : Nat) (k : ArtifactKind) (h : String)
    (n : String) (s : Nat) : countCopies [CopyEvent.fileWrite a b k h] n s = 0 := by
  simp [countCopies]

lemma countArtifactWrites_copy_singleton (a : String) (b : Nat) (h : String)
    (n : String) (s : Nat) (kind : ArtifactKind) :
    countArtifactWrites [CopyEvent.copy a b h] n s kind = 0 := by
  simp [countArtifactWrites]

lemma countArtifactWrites_write_singleton (a : String) (b : Nat) (k : ArtifactKind)
    (h : String) (n : String) (s : Nat) (kind : ArtifactKind) :
    countArtifactWrites [CopyEvent.fileWrite a b k h] n s kind =
      if a = n ∧ b = s ∧ k = kind then 1 else 0 := by
  by_cases hm : a = n ∧ b = s ∧ k = kind
  · obtain ⟨rfl, rfl, rfl⟩ := hm
    simp [countArtifactWrites]
  · rw [if_neg hm]
    have : (a == n && b == s && k == kind) = false := by
      rcases Decidable.not_and_iff_or_not.mp hm with hx | hx
      · simp [hx]
      · rcases Decidable.not_and_iff_or_not.mp hx with hy | hy <;> simp [hy]
    simp [countArtifactWrites, this]

/-- Invariant that makes the at-most-once guarantee inductive: for a fixed
pair `(n, s)`, the event log holds at most one copy, a copy implies cache
membership, and artifact writes triggered by the pair never exceed its
copies. -/
def copyInv (st : MatState) (n : String) (s : Nat) : Prop :=
  countCopies st.events n s ≤ 1 ∧
  (1 ≤ countCopies st.events n s → (n, s) ∈ st.cache) ∧
  ∀ kind, countArtifactWrites st.events n s kind ≤ countCopies st.events n s

lemma write_from_config_cache (st : MatState) (it : SnapItem) :
    (write_from_config st it).cache = st.cache := rfl

lemma write_info_json_cache (st : MatState) (it : SnapItem) :
    (write_info_json st it).cache = st.cache := by
  unfold write_info_json; split <;> rfl

lemma write_ready_file_cache (st : MatState) (it : SnapItem) :
    (write_ready_file st it).cache = st.cache := by
  unfold write_ready_file; split <;> rfl

lemma jobArtifacts_cache (st : MatState) (it : SnapItem) :
    (jobArtifacts st it).cache = st.cache := by
  unfold jobArtifacts
  split
  · rfl
  · rw [write_ready_file_cache, write_info_json_cache, write_from_config_cache]

lemma write_from_config_countCopies (st : MatState) (it : SnapItem) (n : String) (s : Nat) :
    countCopies (write_from_config st it).events n s = countCopies st.events n s := by
  show countCopies (st.events ++ _) n s = _
  rw [countCopies_append, countCopies_write_singleton]
  omega

lemma write_info_json_countCopies (st : MatState) (it : SnapItem) (n : String) (s : Nat) :
    countCopies (write_info_json st it).events n s = countCopies st.events n s := by
  unfold write_info_json
  split
  · rfl
  · show countCopies (st.events ++ _) n s = _
    rw [countCopies_append, countCopies_write_singleton]
    omega

lemma write_ready_file_countCopies (st : MatState) (it : SnapItem) (n : String) (s : Nat) :
    countCopies (write_ready_file st it).events n s = countCopies st.events n s := by
  unfold write_ready_file
  split
  · rfl
  · show countCopies (st.events ++ _) n s = _
    rw [countCopies_append, countCopies_write_singleton]
    omega

lemma jobArtifacts_countCopies (st : MatState) (it : SnapItem) (n : String) (s : Nat) :
    countCopies (jobArtifacts st it).events n s = countCopies st.events n s := by
  unfold jobArtifacts
  split
  · rfl
  · rw [write_ready_file_countCopies, write_info_json_countCopies,
      write_from_config_countCopies]

lemma write_from_config_countArt (st : MatState) (it : SnapItem) (n : String) (s : Nat)
    (kind : ArtifactKind) :
    countArtifactWrites (write_from_config st it).events n s kind =
      countArtifactWrites st.events n s kind +
        if it.cand.name = n ∧ it.cand.size = s ∧ ArtifactKind.params = kind then 1 else 0 := by
  show countArtifactWrites (st.events ++ _) n s kind = _
  rw [countArtifactWrites_append, countArtifactWrites_write_singleton]

lemma write_info_json_countArt_le (st : MatState) (it : SnapItem) (n : String) (s : Nat)
    (kind : ArtifactKind) :
    countArtifactWrites (write_info_json st it).events n s kind ≤
      countArtifactWrites st.events n s kind +
        if it.cand.name = n ∧ it.cand.size = s ∧ ArtifactKind.info = kind then 1 else 0 := by
  unfold write_info_json
  split
  · exact Nat.le_add_right _ _
  · show countArtifactWrites (st.events ++ _) n s kind ≤ _
    rw [countArtifactWrites_append, countArtifactWrites_write_singleton]

lemma write_ready_file_countArt_le (st : MatState) (it : SnapItem) (n : String) (s : Nat)
    (kind : ArtifactKind) :
    countArtifactWrites (write_ready_file st it).events n s kind ≤
      countArtifactWrites st.events n s kind +
        if it.cand.name = n ∧ it.cand.size = s ∧ ArtifactKind.ready = kind then 1 else 0 := by
  unfold write_ready_file
  split
  · exact Nat.le_add_right _ _
  · show countArtifactWrites (st.events ++ _) n s kind ≤ _
    rw [countArtifactWrites_append, countArtifactWrites_write_singleton]

lemma write_from_config_countArt_ne (st : MatState) (it : SnapItem) (n : String) (s : Nat)
    (kind : ArtifactKind) (hne : ¬(it.cand.name = n ∧ it.cand.size = s)) :
    countArtifactWrites (write_from_config st it).events n s kind =
      countArtifactWrites st.events n s kind := by
  rw [write_from_config_countArt, if_neg (by tauto)]
  omega

lemma write_info_json_countArt_ne (st : MatState) (it : SnapItem) (n : String) (s : Nat)
    (kind : ArtifactKind) (hne : ¬(it.cand.name = n ∧ it.cand.size = s)) :
    countArtifactWrites (write_info_json st it).events n s kind =
      countArtifactWrites st.events n s kind := by
  unfold write_info_json
  split
  · rfl
  · show countArtifactWrites (st.events ++ _) n s kind = _
    rw [countArtifactWrites_append, countArtifactWrites_write_singleton, if_neg (by tauto)]
    omega

lemma write_ready_file_countArt_ne (st : MatState) (it : SnapItem) (n : String) (s : Nat)
    (kind : ArtifactKind) (hne : ¬(it.cand.name = n ∧ it.cand.size = s)) :
    countArtifactWrites (write_ready_file st it).events n s kind =
      countArtifactWrites st.events n s kind := by
  unfold write_ready_file
  split
  · rfl
  · show countArtifactWrites (st.events ++ _) n s kind = _
    rw [countArtifactWrites_append, countArtifactWrites_write_singleton, if_neg (by tauto)]
    omega

lemma jobArtifacts_countArt_le (st : MatState) (it : SnapItem) (n : String) (s : Nat)
    (kind : ArtifactKind) :
    countArtifactWrites (jobArtifacts st it).events n s kind ≤
      countArtifactWrites st.events n s kind + 1 := by
  unfold jobArtifacts
  split
  · exact Nat.le_add_right _ _
  · refine le_trans (write_ready_file_countArt_le _ it n s kind) ?_
    refine le_trans (Nat.add_le_add_right (write_info_json_countArt_le _ it n s kind) _) ?_
    rw [write_from_config_countArt]
    rcases kind <;> by_cases h1 : it.cand.name = n <;> by_cases h2 : it.cand.size = s <;>
      simp [h1, h2]

lemma jobArtifacts_countArt_ne (st : MatState) (it : SnapItem) (n : String) (s : Nat)
    (kind : ArtifactKind) (hne : ¬(it.cand.name = n ∧ it.cand.size = s)) :
    countArtifactWrites (jobArtifacts st it).events n s kind =
      countArtifactWrites st.events n s kind := by
  unfold jobArtifacts
  split
  · rfl
  · rw [write_ready_file_countArt_ne _ it n s kind hne,
      write_info_json_countArt_ne _ it n s kind hne,
      write_from_config_countArt_ne _ it n s kind hne]

lemma stageCopy_countCopies (ctx : MatCtx) (st : MatState) (it : SnapItem)
    (n : String) (s : Nat) :
    countCopies (stageCopy ctx st it).events n s =
      countCopies st.events n s + if it.cand.name = n ∧ it.cand.size = s then 1 else 0 := by
  show countCopies (st.events ++ _) n s = _
  rw [countCopies_append, countCopies_copy_singleton]

lemma stageCopy_countArt (ctx : MatCtx) (st : MatState) (it : SnapItem)
    (n : String) (s : Nat) (kind : ArtifactKind) :
    countArtifactWrites (stageCopy ctx st it).events n s kind =
      countArtifactWrites st.events n s kind := by
  show countArtifactWrites (st.events ++ _) n s kind = _
  rw [countArtifactWrites_append, countArtifactWrites_copy_singleton]
  omega

lemma processItem_copyInv (ctx : MatCtx) (st : MatState) (it : SnapItem)
    (n : String) (s : Nat) (h : copyInv st n s) : copyInv (processItem ctx st it) n s := by
  obtain ⟨h1, h2, h3⟩ := h
  unfold processItem
  split
  · exact ⟨h1, h2, h3⟩
  · split
    · exact ⟨h1, h2, h3⟩
    · split
      · exact ⟨h1, h2, h3⟩
      · rename_i hk _ _
        by_cases hm : it.cand.name = n ∧ it.cand.size = s
        · have hc0 : countCopies st.events n s = 0 := by
            rcases Nat.eq_zero_or_pos (countCopies st.events n s) with hz | hp
            · exact hz
            · exfalso
              apply hk
              rw [hm.1, hm.2]
              exact h2 hp
          have hart0 : ∀ kind, countArtifactWrites st.events n s kind = 0 := by
            intro kind
            have := h3 kind
            omega
          have hcopy1 : countCopies (stageCopy ctx st it).events n s = 1 := by
            rw [stageCopy_countCopies, hc0, if_pos hm]
          have hmem1 : (n, s) ∈ (stageCopy ctx st it).cache := by
            show (n, s) ∈ (it.cand.name, it.cand.size) :: st.cache
            rw [hm.1, hm.2]
            exact List.mem_cons_self _ _
          split
          · refine ⟨le_of_eq hcopy1, fun _ => hmem1, fun kind => ?_⟩
            rw [stageCopy_countArt, hart0 kind, hcopy1]
            omega
          · refine ⟨?_, ?_, ?_⟩
            · show countCopies (jobArtifacts (stageCopy ctx st it) it).events n s ≤ 1
              rw [jobArtifacts_countCopies, hcopy1]
            · intro _
              show (n, s) ∈ (jobArtifacts (stageCopy ctx st it) it).cache
              rw [jobArtifacts_cache]
              exact hmem1
            · intro kind
              show countArtifactWrites (jobArtifacts (stageCopy ctx st it) it).events n s kind ≤
                countCopies (jobArtifacts (stageCopy ctx st it) it).events n s
              rw [jobArtifacts_countCopies, hcopy1]
              have hle := jobArtifacts_countArt_le (stageCopy ctx st it) it n s kind
              rw [stageCopy_countArt, hart0 kind] at hle
              omega
        · have hcopyEq : countCopies (stageCopy ctx st it).events n s
              = countCopies st.events n s := by
            rw [stageCopy_countCopies, if_neg hm]
            omega
          have hmemOf : 1 ≤ countCopies st.events n s →
              (n, s) ∈ (stageCopy ctx st it).cache :=
            fun hp => List.mem_cons_of_mem _ (h2 hp)
          split
          · refine ⟨?_, ?_, ?_⟩
            · rw [hcopyEq]
              exact h1
            · intro hp
              rw [hcopyEq] at hp
              exact hmemOf hp
            · intro kind
              rw [stageCopy_countArt, hcopyEq]
              exact h3 kind
          · refine ⟨?_, ?_, ?_⟩
            · show countCopies (jobArtifacts (stageCopy ctx st it) it).events n s ≤ 1
              rw [jobArtifacts_countCopies, hcopyEq]
              exact h1
            · intro hp
              replace hp : 1 ≤
                  countCopies (jobArtifacts (stageCopy ctx st it) it).events n s := hp
              rw [jobArtifacts_countCopies, hcopyEq] at hp
              show (n, s) ∈ (jobArtifacts (stageCopy ctx st it) it).cache
              rw [jobArtifacts_cache]
              exact hmemOf hp
            · intro kind
              show countArtifactWrites (jobArtifacts (stageCopy ctx st it) it).events n s kind ≤
                countCopies (jobArtifacts (stageCopy ctx st it) it).events n s
              rw [jobArtifacts_countCopies, hcopyEq,
                jobArtifacts_countArt_ne _ it n s kind hm, stageCopy_countArt]
              exact h3 kind

lemma foldl_processItem_copyInv (ctx : MatCtx) (n : String) (s : Nat) :
    ∀ (l : List SnapItem) (st : MatState), copyInv st n s →
      copyInv (l.foldl (processItem ctx) st) n s
  | [], _, h => h
  | it :: rest, st, h =>
    foldl_processItem_copyInv ctx n s rest (processItem ctx st it)
      (processItem_copyInv ctx st it n s h)

lemma copy_candidates_copyInv (ctx : MatCtx) (st : MatState) (snapshot : List SnapItem)
    (n : String) (s : Nat) (h : copyInv st n s) :
    copyInv (copy_candidates ctx st snapshot) n s := by
  unfold copy_candidates
  have h0 : copyInv { st with jobsWritten := [], namesForIgnore := [] } n s := h
  have hf := foldl_processItem_copyInv ctx n s snapshot _ h0
  dsimp only
  split
  · exact hf
  · exact hf

lemma runSnapshots_copyInv (ctx : MatCtx) (n : String) (s : Nat) :
    ∀ (snaps : List (List SnapItem)) (st : MatState), copyInv st n s →
      copyInv (runSnapshots ctx st snaps) n s
  | [], _, h => h
  | snap :: rest, st, h =>
    runSnapshots_copyInv ctx n s rest (copy_candidates ctx st snap)
      (copy_candidates_copyInv ctx st snap n s h)

/-- C1: across any sequence of snapshots materialized with one shared
dedupe cache, a given `(name, size)` pair is staged (copied) at most once
and triggers each job-artifact write (parameters file, metadata file,
readiness marker) at most once, however often candidates with that pair
recur in later snapshots. -/
theorem C1_dedupe_at_most_once (ctx : MatCtx) (cache0 : List (String × Nat))
    (ignore0 : List (List Char)) (snaps : List (List SnapItem))
    (name : String) (size : Nat) :
    countCopies (runSnapshots ctx (initialMatState cache0 ignore0) snaps).events
      name size ≤ 1 ∧
    ∀ kind,
      countArtifactWrites (runSnapshots ctx (initialMatState cache0 ignore0) snaps).events
        name size kind ≤ 1 := by
  have h0 : copyInv (initialMatState cache0 ignore0) name size := by
    refine ⟨?_, ?_, ?_⟩
    · show countCopies [] name size ≤ 1
      simp [countCopies]
    · intro hp
      replace hp : 1 ≤ countCopies [] name size := hp
      simp [countCopies] at hp
    · intro kind
      show countArtifactWrites [] name size kind ≤ countCopies [] name size
      simp [countCopies, countArtifactWrites]
  have hf := runSnapshots_copyInv ctx name size snaps _ h0
  exact ⟨hf.1, fun kind => le_trans (hf.2.2 kind) hf.1⟩

/-! ## Lemmas for idempotent materialization (C3) -/

lemma countHashWrites_append (evs1 evs2 : List CopyEvent) (kind : ArtifactKind) (h : String) :
    countHashWrites (evs1 ++ evs2) kind h =
      countHashWrites evs1 kind h + countHashWrites evs2 kind h := by
  simp [countHashWrites, List.filter_append]

lemma countHashWrites_copy_singleton (a : String) (b : Nat) (hh : String)
    (kind : ArtifactKind) (h : String) :
    countHashWrites [CopyEvent.copy a b hh] kind h = 0 := by
  simp [countHashWrites]

lemma countHashWrites_write_singleton (a : String) (b : Nat) (k : ArtifactKind) (hh : String)
    (kind : ArtifactKind) (h : String) :
    countHashWrites [CopyEvent.fileWrite a b k hh] kind h =
      if k = kind ∧ hh = h then 1 else 0 := by
  by_cases hm : k = kind ∧ hh = h
  · obtain ⟨rfl, rfl⟩ := hm
    simp [countHashWrites]
  · rw [if_neg hm]
    have : (k == kind && hh == h) = false := by
      rcases Decidable.not_and_iff_or_not.mp hm with hx | hx <;> simp [hx]
    simp [countHashWrites, this]

lemma write_from_config_countHash (st : MatState) (it : SnapItem) (kind : ArtifactKind)
    (h : String) (hk : kind ≠ ArtifactKind.params) :
    countHashWrites (write_from_config st it).events kind h =
      countHashWrites st.events kind h := by
  show countHashWrites (st.events ++ _) kind h = _
  rw [countHashWrites_append, countHashWrites_write_singleton,
    if_neg (fun hc => hk (hc.1.symm))]
  omega

lemma write_info_json_countHash (st : MatState) (it : SnapItem) (kind : ArtifactKind)
    (h : String) (hk : kind ≠ ArtifactKind.info) :
    countHashWrites (write_info_json st it).events kind h =
      countHashWrites st.events kind h := by
  unfold write_info_json
  split
  · rfl
  · show countHashWrites (st.events ++ _) kind h = _
    rw [countHashWrites_append, countHashWrites_write_singleton,
      if_neg (fun hc => hk (hc.1.symm))]
    omega

lemma write_ready_file_countHash (st : MatState) (it : SnapItem) (kind : ArtifactKind)
    (h : String) (hk : kind ≠ ArtifactKind.ready) :
    countHashWrites (write_ready_file st it).events kind h =
      countHashWrites st.events kind h := by
  unfold write_ready_file
  split
  · rfl
  · show countHashWrites (st.events ++ _) kind h = _
    rw [countHashWrites_append, countHashWrites_write_singleton,
      if_neg (fun hc => hk (hc.1.symm))]
    omega

lemma write_info_json_countHash_info (st : MatState) (it : SnapItem) (h : String)
    (hmem : h ∈ st.fsInfo) :
    countHashWrites (write_info_json st it).events ArtifactKind.info h =
      countHashWrites st.events ArtifactKind.info h := by
  unfold write_info_json
  split
  · rfl
  · rename_i hno
    show countHashWrites (st.events ++ _) _ _ = _
    rw [countHashWrites_append, countHashWrites_write_singleton,
      if_neg (fun hc => hno (by rw [hc.2]; exact hmem))]
    omega

lemma write_ready_file_countHash_ready (st : MatState) (it : SnapItem) (h : String)
    (hmem : h ∈ st.fsReady) :
    countHashWrites (write_ready_file st it).events ArtifactKind.ready h =
      countHashWrites st.events ArtifactKind.ready h := by
  unfold write_ready_file
  split
  · rfl
  · rename_i hno
    show countHashWrites (st.events ++ _) _ _ = _
    rw [countHashWrites_append, countHashWrites_write_singleton,
      if_neg (fun hc => hno (by rw [hc.2]; exact hmem))]
    omega

lemma write_info_json_fsReady (st : MatState) (it : SnapItem) :
    (write_info_json st it).fsReady = st.fsReady := by
  unfold write_info_json
  split <;> rfl

lemma jobArtifacts_countHash_info (st : MatState) (it : SnapItem) (h : String)
    (hmem : h ∈ st.fsInfo) :
    countHashWrites (jobArtifacts st it).events ArtifactKind.info h =
      countHashWrites st.events ArtifactKind.info h := by
  unfold jobArtifacts
  split
  · rfl
  · rw [write_ready_file_countHash (write_info_json (write_from_config st it) it) it
        ArtifactKind.info h (by intro hc; cases hc),
      write_info_json_countHash_info (write_from_config st it) it h hmem,
      write_from_config_countHash st it ArtifactKind.info h (by intro hc; cases hc)]

lemma jobArtifacts_countHash_ready (st : MatState) (it : SnapItem) (h : String)
    (hmem : h ∈ st.fsReady) :
    countHashWrites (jobArtifacts st it).events ArtifactKind.ready h =
      countHashWrites st.events ArtifactKind.ready h := by
  unfold jobArtifacts
  split
  · rfl
  · have hmem2 : h ∈ (write_info_json (write_from_config st it) it).fsReady := by
      rw [write_info_json_fsReady]
      exact hmem
    rw [write_ready_file_countHash_ready (write_info_json (write_from_config st it) it) it
        h hmem2,
      write_info_json_countHash (write_from_config st it) it ArtifactKind.ready h
        (by intro hc; cases hc),
      write_from_config_countHash st it ArtifactKind.ready h (by intro hc; cases hc)]

lemma foldl_processItem_all_cached (ctx : MatCtx) :
    ∀ (l : List SnapItem) (st : MatState),
      (∀ x ∈ l, (x.cand.name, x.cand.size) ∈ st.cache) →
      l.foldl (processItem ctx) st = st
  | [], _, _ => rfl
  | it :: rest, st, h => by
    rw [List.foldl_cons,
      show processItem ctx st it = st from by
        unfold processItem
        rw [if_pos (h it (List.mem_cons_self it rest))]]
    exact foldl_processItem_all_cached ctx rest st
      (fun x hx => h x (List.mem_cons_of_mem it hx))

/-- A job directory whose artifacts are fully populated (parameters file,
metadata file and readiness marker all exist for hash `"h"`) but whose
dedupe cache is fresh — the situation of a re-materialization after a
coordinator restart. -/
def populatedState : MatState :=
  { cache := [], fsParams := ["h"], fsInfo := ["h"], fsReady := ["h"], jobsWritten := [],
    copiedPaths := [], namesForIgnore := [], ignoreLines := [], events := [] }

/-- The same candidate presented again, with the source still present and
every fallible step succeeding. -/
def rematItem : SnapItem := ⟨⟨"a.raw", 100, "h", 2⟩, true, true, true⟩

/-- C3 counterexample: re-materialization is *not* a no-op merely because
the marker and parameter file exist.  With a dedupe cache that does not
hold the pair (the guard the code actually uses), processing the candidate
against a fully populated job directory re-copies the source and rewrites
the parameters file (`write_from_config` writes unconditionally), even
though `.ready` and `mcquac.json` are present. -/
theorem C3_params_rewrite_counterexample :
    (processItem ⟨true, true⟩ populatedState rematItem).events =
      [CopyEvent.copy "a.raw" 100 "h",
       CopyEvent.fileWrite "a.raw" 100 ArtifactKind.params "h"] ∧
    (processItem ⟨true, true⟩ populatedState rematItem).events ≠ populatedState.events := by
  refine ⟨by decide, by decide⟩

/-- C3 (amended): idempotence of the materializer comes from the dedupe
cache, not from the marker or parameter file: a second invocation whose
`(name, size)` pair is already in the cache is a strict no-op, a whole
snapshot of already-cached candidates leaves the state unchanged (no
writes, no new ignore entries), and the metadata file and readiness
marker are never rewritten once they exist (existence-guarded writes).
Only the parameters file lacks such a guard (see the counterexample). -/
theorem C3_idempotent_materialization_amended (ctx : MatCtx) (st : MatState)
    (it : SnapItem) (snapshot : List SnapItem) :
    ((it.cand.name, it.cand.size) ∈ st.cache → processItem ctx st it = st) ∧
    (∀ h, h ∈ st.fsInfo →
      countHashWrites (processItem ctx st it).events ArtifactKind.info h =
        countHashWrites st.events ArtifactKind.info h) ∧
    (∀ h, h ∈ st.fsReady →
      countHashWrites (processItem ctx st it).events ArtifactKind.ready h =
        countHashWrites st.events ArtifactKind.ready h) ∧
    ((∀ x ∈ snapshot, (x.cand.name, x.cand.size) ∈ st.cache) →
      copy_candidates ctx st snapshot = { st with jobsWritten := [], namesForIgnore := [] }) := by
  refine ⟨?_, ?_, ?_, ?_⟩
  · intro hmem
    unfold processItem
    rw [if_pos hmem]
  · intro h hmem
    unfold processItem
    split
    · rfl
    · split
      · rfl
      · split
        · rfl
        · split
          · show countHashWrites (st.events ++ _) _ _ = _
            rw [countHashWrites_append, countHashWrites_copy_singleton]
            omega
          · show countHashWrites (jobArtifacts (stageCopy ctx st it) it).events _ _ = _
            rw [jobArtifacts_countHash_info (stageCopy ctx st it) it h hmem]
            show countHashWrites (st.events ++ _) _ _ = _
            rw [countHashWrites_append, countHashWrites_copy_singleton]
            omega
  · intro h hmem
    unfold processItem
    split
    · rfl
    · split
      · rfl
      · split
        · rfl
        · split
          · show countHashWrites (st.events ++ _) _ _ = _
            rw [countHashWrites_append, countHashWrites_copy_singleton]
            omega
          · show countHashWrites (jobArtifacts (stageCopy ctx st it) it).events _ _ = _
            rw [jobArtifacts_countHash_ready (stageCopy ctx st it) it h hmem]
            show countHashWrites (st.events ++ _) _ _ = _
            rw [countHashWrites_append, countHashWrites_copy_singleton]
            omega
  · intro hall
    unfold copy_candidates
    dsimp only
    rw [foldl_processItem_all_cached ctx snapshot
      { st with jobsWritten := [], namesForIgnore := [] } (fun x hx => hall x hx)]
    rw [if_neg (by simp)]

/-- A materializer state where the candidate's pair is already in the
dedupe cache and the job directory is fully populated. -/
def cachedState : MatState :=
  { cache := [("a.raw", 100)], fsParams := ["h"], fsInfo := ["h"], fsReady := ["h"],
    jobsWritten := [], copiedPaths := [], namesForIgnore := [], ignoreLines := [],
    events := [] }

/-- C3 witness: the amended theorem applied to a cached candidate and a
populated directory — the second invocation is a strict no-op. -/
theorem C3_idempotent_materialization_amended_witness :
    processItem ⟨true, true⟩ cachedState rematItem = cachedState ∧
    countHashWrites (processItem ⟨true, true⟩ cachedState rematItem).events
      ArtifactKind.info "h" = countHashWrites cachedState.events ArtifactKind.info "h" ∧
    countHashWrites (processItem ⟨true, true⟩ cachedState rematItem).events
      ArtifactKind.ready "h" = countHashWrites cachedState.events ArtifactKind.ready "h" ∧
    copy_candidates ⟨true, true⟩ cachedState [rematItem] =
      { cachedState with jobsWritten := [], namesForIgnore := [] } :=
  ⟨(C3_idempotent_materialization_amended ⟨true, true⟩ cachedState rematItem [rematItem]).1
     (by decide),
   (C3_idempotent_materialization_amended ⟨true, true⟩ cachedState rematItem [rematItem]).2.1
     "h" (by decide),
   (C3_idempotent_materialization_amended ⟨true, true⟩ cachedState rematItem [rematItem]).2.2.1
     "h" (by decide),
   (C3_idempotent_materialization_amended ⟨true, true⟩ cachedState rematItem [rematItem]).2.2.2
     (by decide)⟩

/-! ## Lemmas for the marker state machine (C4) -/

/-- Inductive invariant of one job directory under `JobStep`, conditioned
on at most one pair having been materialized into it: at most one marker
file, `.ready` and `.finish` only with the runner idle, `.working` exactly
while a claim or run is in progress, and no marker at all before the first
materialization.  With two or more cached pairs (a hash collision) nothing
is asserted — the exclusivity genuinely fails there. -/
def markerInv (s : JobDirState) : Prop :=
  s.cachedKeys.length ≤ 1 →
    (markerCount s ≤ 1 ∧
     (s.ready = true → s.phase = RunnerPhase.idle) ∧
     (s.working = true → s.phase ≠ RunnerPhase.idle) ∧
     (s.phase ≠ RunnerPhase.idle → s.working = true) ∧
     (s.finish = true → s.phase = RunnerPhase.idle) ∧
     (s.cachedKeys = [] → s.ready = false ∧ s.working = false ∧ s.finish = false))

instance markerInvDecidable (s : JobDirState) : Decidable (markerInv s) := by
  unfold markerInv
  infer_instance

lemma markerInv_step {h : String} {s t : JobDirState} (hinv : markerInv s)
    (hstep : JobStep h s t) : markerInv t := by
  obtain ⟨r, w, f, keys, ph⟩ := s
  cases hstep with
  | materialize name size hh hk =>
    intro hlen
    rcases keys with _ | ⟨k, rest⟩
    · have hcore := hinv (by simp)
      revert hcore
      cases r <;> cases w <;> cases f <;> cases ph <;> simp_all [markerCount]
    · exfalso
      simp at hlen
  | claim hr hp =>
    intro hlen
    have hcore := hinv hlen
    revert hcore hr hp
    rcases keys with _ | ⟨k, _ | ⟨k2, rest⟩⟩
    · cases r <;> cases w <;> cases f <;> cases ph <;> simp_all [markerCount]
    · cases r <;> cases w <;> cases f <;> cases ph <;> simp_all [markerCount]
    · simp at hlen
  | launchOk hp =>
    intro hlen
    have hcore := hinv hlen
    revert hcore hp
    rcases keys with _ | ⟨k, _ | ⟨k2, rest⟩⟩
    · cases r <;> cases w <;> cases f <;> cases ph <;> simp_all [markerCount]
    · cases r <;> cases w <;> cases f <;> cases ph <;> simp_all [markerCount]
    · simp at hlen
  | launchErr hp =>
    intro hlen
    have hcore := hinv hlen
    revert hcore hp
    rcases keys with _ | ⟨k, _ | ⟨k2, rest⟩⟩
    · cases r <;> cases w <;> cases f <;> cases ph <;> simp_all [markerCount]
    · cases r <;> cases w <;> cases f <;> cases ph <;> simp_all [markerCount]
    · simp at hlen
  | finishJob hp =>
    intro hlen
    have hcore := hinv hlen
    revert hcore hp
    rcases keys with _ | ⟨k, _ | ⟨k2, rest⟩⟩
    · cases r <;> cases w <;> cases f <;> cases ph <;> simp_all [markerCount]
    · cases r <;> cases w <;> cases f <;> cases ph <;> simp_all [markerCount]
    · simp at hlen

lemma reachable_markerInv {h : String} {s : JobDirState} (hr : JobReachable h s) :
    markerInv s := by
  induction hr with
  | init => decide
  | step hprev hstep ih => exact markerInv_step ih hstep

lemma finish_only_collision {h : String} {s t : JobDirState} (hinv : markerInv s)
    (hone : s.cachedKeys.length ≤ 1) (hf : s.finish = true) (hstep : JobStep h s t) :
    t.working = s.working ∧ t.finish = s.finish ∧ 2 ≤ t.cachedKeys.length := by
  obtain ⟨r, w, f, keys, ph⟩ := s
  have hcore := hinv hone
  cases hstep with
  | materialize name size hh hk =>
    refine ⟨rfl, rfl, ?_⟩
    show 2 ≤ ((name, size) :: keys).length
    rcases keys with _ | ⟨k, rest⟩
    · exfalso
      revert hcore hf
      cases r <;> cases w <;> cases f <;> cases ph <;> simp_all [markerCount]
    · simp
  | claim hr2 hp =>
    exfalso
    revert hcore hf hr2
    rcases keys with _ | ⟨k, _ | ⟨k2, rest⟩⟩
    · cases r <;> cases w <;> cases f <;> cases ph <;> simp_all [markerCount]
    · cases r <;> cases w <;> cases f <;> cases ph <;> simp_all [markerCount]
    · simp at hone
  | launchOk hp =>
    exfalso
    revert hcore hf hp
    rcases keys with _ | ⟨k, _ | ⟨k2, rest⟩⟩
    · cases r <;> cases w <;> cases f <;> cases ph <;> simp_all [markerCount]
    · cases r <;> cases w <;> cases f <;> cases ph <;> simp_all [markerCount]
    · simp at hone
  | launchErr hp =>
    exfalso
    revert hcore hf hp
    rcases keys with _ | ⟨k, _ | ⟨k2, rest⟩⟩
    · cases r <;> cases w <;> cases f <;> cases ph <;> simp_all [markerCount]
    · cases r <;> cases w <;> cases f <;> cases ph <;> simp_all [markerCount]
    · simp at hone
  | finishJob hp =>
    exfalso
    revert hcore hf hp
    rcases keys with _ | ⟨k, _ | ⟨k2, rest⟩⟩
    · cases r <;> cases w <;> cases f <;> cases ph <;> simp_all [markerCount]
    · cases r <;> cases w <;> cases f <;> cases ph <;> simp_all [markerCount]
    · simp at hone

/-- C4 counterexample: the claimed invariant fails in a reachable state.
The materializer's guard is the per-`(name, size)` dedupe cache, and the
pairs `("a1", 2)` and `("a", 12)` share their hash with certainty, so
after the first pair's job finishes, materializing the second pair
recreates `.ready` next to `.finish`: a reachable state of that job
directory with two markers present — and from it the runner performs a
further `ready → working` rename although `.finish` exists. -/
theorem C4_marker_collision_counterexample :
    JobReachable (make_hash "a1" 2)
      ⟨true, false, true, [("a", 12), ("a1", 2)], RunnerPhase.idle⟩ ∧
    markerCount ⟨true, false, true, [("a", 12), ("a1", 2)], RunnerPhase.idle⟩ = 2 ∧
    JobStep (make_hash "a1" 2)
      ⟨true, false, true, [("a", 12), ("a1", 2)], RunnerPhase.idle⟩
      ⟨false, true, true, [("a", 12), ("a1", 2)], RunnerPhase.claimed⟩ := by
  refine ⟨?_, by decide, ?_⟩
  · exact JobReachable.step
      (JobReachable.step
        (JobReachable.step
          (JobReachable.step
            (JobReachable.step JobReachable.init
              (JobStep.materialize _ "a1" 2 rfl (by decide)))
            (JobStep.claim _ rfl rfl))
          (JobStep.launchOk _ rfl))
        (JobStep.finishJob _ rfl))
      (JobStep.materialize _ "a" 12 make_hash_concat_collision.symm (by decide))
  · exact JobStep.claim _ rfl rfl

/-- C4 (amended): the marker invariant holds per job directory as long as
at most one distinct `(name, size)` pair has been materialized into it —
the situation whenever no two materialized pairs collide in `_make_hash`:
in every reachable state of such a directory at most one of
`.ready`/`.working`/`.finish` is present, and once `.finish` exists the
only possible transition is the materialization of a *second* colliding
pair (which leaves `.working`/`.finish` untouched); no rename occurs
after `.finish` absent such a collision. -/
theorem C4_marker_exclusive_and_terminal (h : String) (s : JobDirState)
    (hr : JobReachable h s) (hone : s.cachedKeys.length ≤ 1) :
    markerCount s ≤ 1 ∧
    (s.finish = true → ∀ t, JobStep h s t →
      t.working = s.working ∧ t.finish = s.finish ∧ 2 ≤ t.cachedKeys.length) := by
  have hinv := reachable_markerInv hr
  exact ⟨(hinv hone).1, fun hf t hstep => finish_only_collision hinv hone hf hstep⟩

/-- C4 witness: the amended theorem applied to the finished single-pair
state reached by materialize, claim, launch and finish. -/
theorem C4_marker_exclusive_and_terminal_witness :
    markerCount ⟨false, false, true, [("a1", 2)], RunnerPhase.idle⟩ ≤ 1 ∧
    ((⟨false, false, true, [("a1", 2)], RunnerPhase.idle⟩ : JobDirState).finish = true →
      ∀ t, JobStep (make_hash "a1" 2)
          ⟨false, false, true, [("a1", 2)], RunnerPhase.idle⟩ t →
        t.working = false ∧ t.finish = true ∧ 2 ≤ t.cachedKeys.length) :=
  C4_marker_exclusive_and_terminal (make_hash "a1" 2) _
    (JobReachable.step
      (JobReachable.step
        (JobReachable.step
          (JobReachable.step JobReachable.init
            (JobStep.materialize _ "a1" 2 rfl (by decide)))
          (JobStep.claim _ rfl rfl))
        (JobStep.launchOk _ rfl))
      (JobStep.finishJob _ rfl))
    (by decide)

end AiQcAuto
